import Mathlib

/-!
# Loan system: state machine, store and usecase

A shallow embedding of the loan entity with its transition methods
(`internal/model/loan.go`), of the in-memory store
(`internal/repository/loan/loan.go`) and of the usecase
(`internal/usecase/loan/loan.go`).

Conventions of the embedding:

* `LoanState` is a Go `string` type, so a state is an arbitrary `String`; the four
  named constants are four particular strings. `stateOrder` is a Go map lookup,
  which yields the zero value `0` for a key that is absent.
* `int64` identifiers and `time.Time` instants are never computed with in the
  model package; they are carried as `Int`.
* `float64` is the type `Float64` below: the finite numbers by their exact
  value, the two infinities and NaN, with the addition of IEEE 754 binary64
  (round to nearest, ties to even) and its comparisons `>` and `==`.
* A nullable pointer field (`*Approval`, `*Disbursement`) is an `Option`.
* A method with a pointer receiver that returns `error` becomes a function that
  returns the receiver after the call together with `Option GoError`
  (`none` is the `nil` error). The receiver after a failed call stays observable.
* The store and the usecase work on `*model.Loan` pointers: loan objects live in
  a heap indexed by address, and a write through a pointer is a heap update.
* The usecase is stated over any implementation of its two collaborators; each
  call it makes on them is recorded, so that statements can count the calls.
-/

namespace model

/-- Go `error` values as the program builds them: `errors.New msg`, and
`fmt.Errorf (pre ++ ": %w") cause`, which keeps the cause for inspection. -/
inductive GoError where
  | new (msg : String)
  | wrap (pre : String) (cause : GoError)
deriving DecidableEq, Repr

/-- The text of an error, as the method `Error()` gives it. -/
def GoError.Error : GoError → String
  | .new msg => msg
  | .wrap pre cause => pre ++ ": " ++ cause.Error

/-- The type `LoanState string`. -/
abbrev LoanState := String

def StateProposed : LoanState := "PROPOSED"
def StateApproved : LoanState := "APPROVED"
def StateInvested : LoanState := "INVESTED"
def StateDisbursed : LoanState := "DISBURSED"

/-! ## The type `float64`

The program adds `float64` values and compares them with `>` and `==`; these
three operations are modelled, as IEEE 754 binary64 defines them. -/

/-- A `float64`: a finite number, by its exact value; an infinity, by its sign;
or NaN. Every `float64` is a value of this type. The two zeros are one value,
`fin 0`, and all NaNs are one value: `+`, `>` and `==` do not tell them apart.
The type also has finite values that no `float64` has (`fin (1/3)`); a
statement over all values holds of the `float64` ones, and every sum is a
`float64`, being rounded. -/
inductive Float64 where
  | fin (q : ℚ)
  | inf (neg : Bool)
  | nan
deriving DecidableEq, Repr

/-- The number of binary digits of `n`, counted with at most `fuel` halvings. -/
def bitLengthAux : Nat → Nat → Nat
  | 0, _ => 0
  | fuel + 1, n => if n = 0 then 0 else bitLengthAux fuel (n / 2) + 1

/-- The number of binary digits of `n` (`0` for `0`); `n` halvings are enough. -/
def bitLength (n : Nat) : Nat :=
  bitLengthAux n n

/-- Whether `2 ^ e ≤ n / d`, for `d > 0`. -/
def pow2Le (e : Int) (n d : Nat) : Bool :=
  if 0 ≤ e then 2 ^ e.toNat * d ≤ n else d ≤ n * 2 ^ (-e).toNat

/-- The integer `e` with `2 ^ e ≤ n / d < 2 ^ (e + 1)`, for `n, d > 0`. -/
def floorLog2 (n d : Nat) : Int :=
  let e0 : Int := (bitLength n : Int) - (bitLength d : Int)
  if pow2Le e0 n d then e0 else e0 - 1

/-- The integer nearest to `n / d`; when `n / d` is half way between two
integers, the even one. -/
def roundHalfEven (n d : Nat) : Nat :=
  let q := n / d
  let r := n % d
  if 2 * r < d then q
  else if d < 2 * r then q + 1
  else if q % 2 = 0 then q else q + 1

/-- The `float64` nearest to the number `q`, ties to even: 53 binary digits, the
unit in the last place no smaller than `2 ^ (-1074)`, and an infinity from
`2 ^ 1024` on. -/
def Float64.round (q : ℚ) : Float64 :=
  if q.num = 0 then .fin 0
  else
    let n := q.num.natAbs
    let d := q.den
    let e := floorLog2 n d
    let s : Int := max (e - 52) (-1074)
    if 0 ≤ s then
      let r : Nat := roundHalfEven n (d * 2 ^ s.toNat) * 2 ^ s.toNat
      if 2 ^ 1024 ≤ r then .inf (decide (q.num < 0))
      else .fin (mkRat (if q.num < 0 then -(r : Int) else (r : Int)) 1)
    else
      let m : Nat := roundHalfEven (n * 2 ^ (-s).toNat) d
      .fin (mkRat (if q.num < 0 then -(m : Int) else (m : Int)) (2 ^ (-s).toNat))

/-- The sum `a + b` of two `float64`: the exact sum, rounded. -/
def Float64.add : Float64 → Float64 → Float64
  | .nan, _ => .nan
  | _, .nan => .nan
  | .inf a, .inf b => if a = b then .inf a else .nan
  | .inf a, .fin _ => .inf a
  | .fin _, .inf b => .inf b
  | .fin a, .fin b => Float64.round (a + b)

/-- The comparison `a > b` of two `float64`; false when either is NaN. -/
def Float64.gt : Float64 → Float64 → Bool
  | .nan, _ => false
  | _, .nan => false
  | .inf a, .inf b => !a && b
  | .inf a, .fin _ => !a
  | .fin _, .inf b => b
  | .fin a, .fin b => decide (b < a)

/-- The comparison `a == b` of two `float64`; false when either is NaN. -/
def Float64.eq : Float64 → Float64 → Bool
  | .fin a, .fin b => decide (a = b)
  | .inf a, .inf b => a == b
  | _, _ => false

/-- The comparison `a <= b` of two `float64`; false when either is NaN. -/
def Float64.le (a b : Float64) : Bool :=
  Float64.gt b a || Float64.eq a b

/-- The exact value of a finite `float64` (`0` for an infinity and for NaN). -/
def Float64.toRat : Float64 → ℚ
  | .fin q => q
  | _ => 0

/-- A numeral is the `float64` nearest to it, as for a Go constant. -/
instance instOfNatFloat64 (n : Nat) : OfNat Float64 n :=
  ⟨Float64.round (mkRat n 1)⟩

structure Approval where
  ValidatorID : Int
  ProofURL : String
  ApprovedAt : Int
deriving DecidableEq, Repr

structure Investment where
  InvestorID : Int
  Amount : Float64
deriving DecidableEq, Repr

structure Disbursement where
  OfficerID : Int
  AgreementURL : String
  DisbursedAt : Int
deriving DecidableEq, Repr

structure Loan where
  ID : Int
  BorrowerID : Int
  Principal : Float64
  Rate : Float64
  ROI : Float64
  State : LoanState
  Approval : Option model.Approval
  Investments : List model.Investment
  Disbursement : Option model.Disbursement
  AgreementLink : String
deriving DecidableEq, Repr

/-- The map `stateOrder`; a key that is not in the map reads as `0`. -/
def stateOrder (s : LoanState) : Int :=
  if s = StateProposed then 1
  else if s = StateApproved then 2
  else if s = StateInvested then 3
  else if s = StateDisbursed then 4
  else 0

def Loan.CanTransitionTo (l : Loan) (newState : LoanState) : Bool :=
  let currentOrder := stateOrder l.State
  let newOrder := stateOrder newState
  newOrder - currentOrder == 1

def Loan.Approve (l : Loan) (approval : model.Approval) : Loan × Option GoError :=
  if l.CanTransitionTo StateApproved then
    ({ l with State := StateApproved, Approval := some approval }, none)
  else
    (l, some (GoError.new "can only approve when loan is proposed"))

/-- The additions are `Float64.add`, the test `total > l.Principal` is
`Float64.gt` and the test `total == l.Principal` is `Float64.eq`. -/
def Loan.AddInvestment (l : Loan) (investment : model.Investment) : Loan × Option GoError :=
  let total :=
    l.Investments.foldl (fun total inv => Float64.add total inv.Amount) investment.Amount
  if Float64.gt total l.Principal then
    (l, some (GoError.new "total investments exceed principal"))
  else if l.CanTransitionTo StateInvested then
    let l := { l with Investments := l.Investments ++ [investment] }
    if Float64.eq total l.Principal then
      ({ l with State := StateInvested }, none)
    else
      (l, none)
  else
    (l, some (GoError.new "can only invest when loan is approved"))

def Loan.Disburse (l : Loan) (disbursement : model.Disbursement) : Loan × Option GoError :=
  if l.CanTransitionTo StateDisbursed then
    ({ l with State := StateDisbursed, Disbursement := some disbursement }, none)
  else
    (l, some (GoError.new "can only disburse when loan is invested"))

/-- The four named states, in the order of the workflow. -/
def namedStates : List LoanState :=
  [StateProposed, StateApproved, StateInvested, StateDisbursed]

/-- The value of the local variable `total` of `AddInvestment`: the amount of
the new investment, then the existing amounts added to it one after the other,
in order, each sum rounded. -/
def Loan.total (l : Loan) (investment : model.Investment) : Float64 :=
  l.Investments.foldl (fun total inv => Float64.add total inv.Amount) investment.Amount

/-- Whether a value of the type `Float64` is a `float64`: an infinity, NaN, or a
finite number that rounding leaves as it is. -/
def Float64.isValue : Float64 → Bool
  | .fin q => decide (Float64.round q = .fin q)
  | _ => true

/-- Whether the principal of a loan and the amounts of its investments are
`float64` values. -/
def Loan.amountsAreValues (l : Loan) : Bool :=
  l.Principal.isValue && l.Investments.all (fun inv => inv.Amount.isValue)

/-- Sum of the amounts of a sequence of investments, the amounts taken as exact
numbers and added without rounding. -/
def sumAmounts (invs : List model.Investment) : ℚ :=
  (invs.map (fun inv => inv.Amount.toRat)).sum

/-- The funded total as the code last computed it: the `total` of the call that
appended the last investment, and `0` when there is no investment. -/
def Loan.funded (l : Loan) : Float64 :=
  match l.Investments.reverse with
  | [] => .fin 0
  | last :: earlier =>
    earlier.reverse.foldl (fun total inv => Float64.add total inv.Amount) last.Amount

/-- A sequence of `AddInvestment` calls on one loan, each call made on the loan
the previous call left, whatever that call returned. -/
def addInvestments (l : Loan) (invs : List model.Investment) : Loan :=
  invs.foldl (fun m inv => (m.AddInvestment inv).1) l

/-- One call of a transition method, with its argument. -/
inductive Op where
  | approve (a : model.Approval)
  | addInvestment (inv : model.Investment)
  | disburse (d : model.Disbursement)
deriving DecidableEq, Repr

/-- The call `op` made on the loan `l`: the loan after the call and the error. -/
def Loan.call (l : Loan) : Op → Loan × Option GoError
  | .approve a => l.Approve a
  | .addInvestment inv => l.AddInvestment inv
  | .disburse d => l.Disburse d

/-- A finite sequence of calls on one loan, each call made on the loan the
previous call left, whether that call succeeded or failed. -/
def Loan.calls (l : Loan) (ops : List Op) : Loan :=
  ops.foldl (fun m op => (m.call op).1) l

/-- A freshly created loan: state Proposed, nothing approved, invested or
disbursed. -/
def proposedLoan : Loan :=
  { ID := 7, BorrowerID := 1, Principal := 5000, Rate := 5, ROI := 6,
    State := StateProposed, Approval := none,
    Investments := [], Disbursement := none, AgreementLink := "link" }

/-- A fully funded loan, in state Invested. -/
def investedLoan : Loan :=
  { ID := 7, BorrowerID := 1, Principal := 1000, Rate := 5, ROI := 6,
    State := StateInvested, Approval := some ⟨1, "https://proof.com", 0⟩,
    Investments := [⟨1, 1000⟩], Disbursement := none, AgreementLink := "link" }

/-- A loan in state Approved, used to instantiate the statements. -/
def approvedLoan : Loan :=
  { ID := 7, BorrowerID := 1, Principal := 5000, Rate := 5, ROI := 6,
    State := StateApproved, Approval := some ⟨1, "https://proof.com", 0⟩,
    Investments := [⟨1, 2000⟩], Disbursement := none, AgreementLink := "link" }

/-- A run over a fresh loan of principal 5000: calls out of turn that fail,
funding in two parts, an over-funding attempt, and the disbursement. -/
def demoOps : List Op :=
  [.addInvestment ⟨1, 10⟩, .approve ⟨1, "p", 0⟩, .addInvestment ⟨1, 2000⟩,
    .disburse ⟨1, "u", 0⟩, .addInvestment ⟨2, 3000⟩, .addInvestment ⟨3, 1⟩,
    .disburse ⟨1, "u", 1⟩, .approve ⟨2, "q", 2⟩]

/-- The `float64` nearest to 0.1, which is what the Go constant `0.1` is. -/
def tenth : Float64 :=
  Float64.round (mkRat 1 10)

/-- A loan of principal 1 in state Approved, with no investment yet. -/
def unitLoan : Loan :=
  { ID := 7, BorrowerID := 1, Principal := 1, Rate := 5, ROI := 6,
    State := StateApproved, Approval := some ⟨1, "https://proof.com", 0⟩,
    Investments := [], Disbursement := none, AgreementLink := "link" }

/-- The loan of principal 1 after nine investments of 0.1: still Approved. -/
def tenthsLoan : Loan :=
  { unitLoan with Investments := List.replicate 9 ⟨1, tenth⟩ }

/-- A loan of principal `2 ^ 53 + 2` in state Approved, funded by `2 ^ 53`
and by `1`. -/
def roundedLoan : Loan :=
  { unitLoan with
    Principal := 9007199254740994,
    Investments := [⟨1, 9007199254740992⟩, ⟨2, 1⟩] }

/-- A loan of principal `2 ^ 53` funded by `2 ^ 53 - 3`, `0.75`, `0.5` and `1.25`,
in state Invested. -/
def fundedLoan : Loan :=
  { unitLoan with
    Principal := 9007199254740992,
    State := StateInvested,
    Investments := [⟨1, 9007199254740989⟩, ⟨2, .fin (3 / 4)⟩, ⟨3, .fin (1 / 2)⟩,
      ⟨4, .fin (5 / 4)⟩] }

/-- A loan of principal `2 ^ 53` funded in one investment, in state Invested. -/
def filledLoan : Loan :=
  { unitLoan with
    Principal := 9007199254740992,
    State := StateInvested,
    Investments := [⟨1, 9007199254740992⟩] }

/-- A loan of principal `2 ^ 53 - 1` in state Approved, funded by `2 ^ 53 - 3`,
`0.5` and `1.5`. -/
def nearlyFilledLoan : Loan :=
  { unitLoan with
    Principal := 9007199254740991,
    Investments := [⟨1, 9007199254740989⟩, ⟨2, .fin (1 / 2)⟩, ⟨3, .fin (3 / 2)⟩] }

/-- A fresh loan of principal `2 ^ 53`, in state Proposed. -/
def largeLoan : Loan :=
  { unitLoan with
    Principal := 9007199254740992, State := StateProposed, Approval := none }

/-- Approval, then an investment of `2 ^ 53 - 1`, then one of `0.5`. -/
def largeOps : List Op :=
  [.approve ⟨1, "p", 0⟩, .addInvestment ⟨1, 9007199254740991⟩,
    .addInvestment ⟨2, .fin (1 / 2)⟩]

/-- The funding invariant of a loan whose principal is `p`, on the total as the
code computes it: no investment while Proposed; while Approved a funded total
that is neither above `p` nor equal to it; once Invested or Disbursed a funded
total equal to `p`. -/
def FundingInv (p : Float64) (l : Loan) : Prop :=
  l.Principal = p ∧ l.State ∈ namedStates ∧
  (l.State = StateProposed → l.Investments = []) ∧
  (l.State = StateApproved →
    Float64.gt l.funded p = false ∧ Float64.eq l.funded p = false) ∧
  (l.State = StateInvested ∨ l.State = StateDisbursed → Float64.eq l.funded p = true)

/-- The records a loan carries in each named state: neither record while
Proposed, the approval alone while Approved or Invested, both once Disbursed. -/
def RecordsInv (l : Loan) : Prop :=
  (l.State = StateProposed ∧ l.Approval = none ∧ l.Disbursement = none) ∨
  (l.State = StateApproved ∧ l.Approval ≠ none ∧ l.Disbursement = none) ∨
  (l.State = StateInvested ∧ l.Approval ≠ none ∧ l.Disbursement = none) ∨
  (l.State = StateDisbursed ∧ l.Approval ≠ none ∧ l.Disbursement ≠ none)

/-! ## Loan objects in memory

The store and the usecase hold `*model.Loan` pointers and write through them, so
the loan objects live in a heap that is passed along explicitly. -/

/-- A non-nil `*model.Loan`: the address of a loan object. -/
abbrev LoanPtr := Nat

/-- The loan objects in memory, by address. Pointers with one address are
aliases: what is written through one is read through the other. The write
`*p = l` on a heap `h` is `Function.update h p l`. -/
abbrev Heap := LoanPtr → Loan

/-- Modelled from the spec: the declaration of the type `model.LoanAgreement`
is not among the sources, only its use `LoanAgreement{LoanID: loan.ID}`; the
spec gives the payload as the one field `loanId: int64`. -/
structure LoanAgreement where
  LoanID : Int
deriving DecidableEq, Repr

/-- A byte slice. The only byte slices of the program are JSON encodings of a
`LoanAgreement`; the encoding is one-to-one, and a slice is kept as the value it
encodes. -/
structure Bytes where
  encoded : LoanAgreement
deriving DecidableEq, Repr

/-- The cause kept by `%w`, as `errors.Unwrap` gives it. -/
def GoError.Unwrap : GoError → Option GoError
  | .new _ => none
  | .wrap _ cause => some cause

end model

namespace json

/-- The library call `json.Marshal` on a `LoanAgreement`: a struct of one
integer field always encodes, so the error is nil. -/
def Marshal (v : model.LoanAgreement) : model.Bytes × Option model.GoError :=
  (⟨v⟩, none)

end json

namespace snowflake

/-- The identifier generator of the library `bwmarrin/snowflake`, which is not
part of the repository: it is taken as given, as the identifiers it will hand
out, in order, and the number handed out so far. -/
structure Node where
  ids : Nat → Int
  issued : Nat

/-- The call `Generate().Int64()`: the next identifier. -/
def Node.Generate (n : Node) : Int × Node :=
  (n.ids n.issued, { n with issued := n.issued + 1 })

end snowflake

namespace pubsub

open model

/-- The interface `Mock` of the publisher. An implementation has a state `σ` of
its own. -/
structure Mock (σ : Type) where
  Publish : σ → Heap → String → Bytes → (σ × Heap) × Option GoError

/-- The publisher `NewMock()`: `Publish` prints a line and returns nil. -/
def NewMock {σ : Type} : Mock σ :=
  { Publish := fun s h _ _ => ((s, h), none) }

end pubsub

/-! ## The store (`internal/repository/loan`) and the usecase
(`internal/usecase/loan`)

Both Go packages are named `loan`. The `context.Context` arguments are read by
none of the functions and are left out. -/

namespace loan

open model

/-- The interface `Repository`, with the methods the usecase calls (`FindAll` is
called by none of the operations below). An implementation has a state `σ` of
its own and reaches the loan objects through the heap. -/
structure Repository (σ : Type) where
  Save : σ → Heap → LoanPtr → (σ × Heap) × Option GoError
  FindByID : σ → Heap → Int → (σ × Heap) × (Option LoanPtr × Option GoError)
  Update : σ → Heap → LoanPtr → (σ × Heap) × Option GoError

/-- The struct `repository`: the generator and the map from identifier to loan
pointer (a key that is absent reads as `none`). The lock `mu` is left out: the
calls are taken one at a time. -/
structure repository where
  snowflakeNode : snowflake.Node
  loans : Int → Option LoanPtr

/-- The constructor `NewRepository`, given what `snowflake.NewNode(1)` returns:
no repository when that call fails, else a repository with an empty map. -/
def NewRepository (newNode : snowflake.Node × Option GoError) : Option repository :=
  match newNode.2 with
  | some _ => none
  | none => some { snowflakeNode := newNode.1, loans := fun _ => none }

def repository.Save (r : repository) (heap : Heap) (loan : LoanPtr) :
    (repository × Heap) × Option GoError :=
  let st : repository × Heap :=
    if (heap loan).ID = 0 then
      ({ r with snowflakeNode := r.snowflakeNode.Generate.2 },
        Function.update heap loan { heap loan with ID := r.snowflakeNode.Generate.1 })
    else
      (r, heap)
  if (st.1.loans (st.2 loan).ID).isSome then
    (st, some (GoError.new "loan already exists"))
  else
    (({ st.1 with loans := Function.update st.1.loans (st.2 loan).ID (some loan) }, st.2),
      none)

def repository.FindByID (r : repository) (id : Int) : Option LoanPtr × Option GoError :=
  match r.loans id with
  | none => (none, some (GoError.new "loan not found"))
  | some loan => (some loan, none)

def repository.Update (r : repository) (heap : Heap) (loan : LoanPtr) :
    repository × Option GoError :=
  if ¬ (r.loans (heap loan).ID).isSome then
    (r, some (GoError.new "loan not found"))
  else
    ({ r with loans := Function.update r.loans (heap loan).ID (some loan) }, none)

/-- The struct `repository` seen through the interface `Repository`. -/
def repository.toRepository : Repository repository :=
  { Save := fun r h p => r.Save h p
    FindByID := fun r h id => ((r, h), r.FindByID id)
    Update := fun r h p => (((r.Update h p).1, h), (r.Update h p).2) }

/-- A call the usecase makes on one of its two collaborators, with the
arguments; for a loan pointer, also the loan object as it is at the call. -/
inductive Call where
  | Save (loan : LoanPtr) (seen : Loan)
  | FindByID (id : Int)
  | Update (loan : LoanPtr) (seen : Loan)
  | Publish (topic : String) (data : Bytes)
deriving DecidableEq, Repr

/-- What a usecase operation runs in: the state of the collaborators, the loan
objects in memory, and the calls made on the collaborators so far, oldest
first. -/
structure World (σ : Type) where
  ext : σ
  heap : Heap
  calls : List Call

/-- The struct `usecase`. -/
structure usecase (σ : Type) where
  repo : Repository σ
  pubsub : pubsub.Mock σ

def NewUsecase {σ : Type} (repo : Repository σ) (pubsub : pubsub.Mock σ) : usecase σ :=
  { repo := repo, pubsub := pubsub }

/-- The call `uc.repo.Save(ctx, loan)`, recorded. -/
def usecase.repoSave {σ : Type} (uc : usecase σ) (w : World σ) (loan : LoanPtr) :
    World σ × Option GoError :=
  let r := uc.repo.Save w.ext w.heap loan
  ({ ext := r.1.1, heap := r.1.2, calls := w.calls ++ [Call.Save loan (w.heap loan)] }, r.2)

/-- The call `uc.repo.FindByID(ctx, id)`, recorded. -/
def usecase.repoFindByID {σ : Type} (uc : usecase σ) (w : World σ) (id : Int) :
    World σ × (Option LoanPtr × Option GoError) :=
  let r := uc.repo.FindByID w.ext w.heap id
  ({ ext := r.1.1, heap := r.1.2, calls := w.calls ++ [Call.FindByID id] }, r.2)

/-- The call `uc.repo.Update(ctx, loan)`, recorded. -/
def usecase.repoUpdate {σ : Type} (uc : usecase σ) (w : World σ) (loan : LoanPtr) :
    World σ × Option GoError :=
  let r := uc.repo.Update w.ext w.heap loan
  ({ ext := r.1.1, heap := r.1.2, calls := w.calls ++ [Call.Update loan (w.heap loan)] },
    r.2)

/-- The call `uc.pubsub.Publish(ctx, topic, data)`, recorded. -/
def usecase.pubsubPublish {σ : Type} (uc : usecase σ) (w : World σ) (topic : String)
    (data : Bytes) : World σ × Option GoError :=
  let r := uc.pubsub.Publish w.ext w.heap topic data
  ({ ext := r.1.1, heap := r.1.2, calls := w.calls ++ [Call.Publish topic data] }, r.2)

/-- The write `loan.State = model.StateProposed`, then `Save`. -/
def usecase.CreateLoan {σ : Type} (uc : usecase σ) (w : World σ) (loan : LoanPtr) :
    World σ × Option GoError :=
  let w := { w with
    heap := Function.update w.heap loan { w.heap loan with State := StateProposed } }
  uc.repoSave w loan

/-- The result is `none` when the call panics: the repository returned neither
a loan nor an error, and the nil pointer is dereferenced. -/
def usecase.ApproveLoan {σ : Type} (uc : usecase σ) (w : World σ) (loanID : Int)
    (approval : model.Approval) : Option (World σ × (Option LoanPtr × Option GoError)) :=
  let found := uc.repoFindByID w loanID
  let w := found.1
  match found.2.2, found.2.1 with
  | some err, _ => some (w, (none, some err))
  | none, none => none
  | none, some loan =>
    let res := (w.heap loan).Approve approval
    let w := { w with heap := Function.update w.heap loan res.1 }
    match res.2 with
    | some err => some (w, (none, some (GoError.wrap "approval failed" err)))
    | none =>
      let upd := uc.repoUpdate w loan
      some (upd.1, (some loan, upd.2))

/-- The result is `none` when the call panics, as for `ApproveLoan`. -/
def usecase.AddInvestment {σ : Type} (uc : usecase σ) (w : World σ) (loanID : Int)
    (investment : model.Investment) :
    Option (World σ × (Option LoanPtr × Option GoError)) :=
  let found := uc.repoFindByID w loanID
  let w := found.1
  match found.2.2, found.2.1 with
  | some err, _ => some (w, (none, some err))
  | none, none => none
  | none, some loan =>
    let res := (w.heap loan).AddInvestment investment
    let w := { w with heap := Function.update w.heap loan res.1 }
    match res.2 with
    | some err => some (w, (none, some (GoError.wrap "investment failed" err)))
    | none =>
      if (w.heap loan).State = StateInvested then
        let agreement : LoanAgreement := { LoanID := (w.heap loan).ID }
        let enc := json.Marshal agreement
        match enc.2 with
        | some err => some (w, (none, some (GoError.wrap "marshal agreement failed" err)))
        | none =>
          let pub := uc.pubsubPublish w "loan_invested" enc.1
          match pub.2 with
          | some err =>
            some (pub.1, (none, some (GoError.wrap "publish loan invested failed" err)))
          | none =>
            let upd := uc.repoUpdate pub.1 loan
            some (upd.1, (some loan, upd.2))
      else
        let upd := uc.repoUpdate w loan
        some (upd.1, (some loan, upd.2))

/-- The result is `none` when the call panics, as for `ApproveLoan`. -/
def usecase.DisburseLoan {σ : Type} (uc : usecase σ) (w : World σ) (loanID : Int)
    (disbursement : model.Disbursement) :
    Option (World σ × (Option LoanPtr × Option GoError)) :=
  let found := uc.repoFindByID w loanID
  let w := found.1
  match found.2.2, found.2.1 with
  | some err, _ => some (w, (none, some err))
  | none, none => none
  | none, some loan =>
    let res := (w.heap loan).Disburse disbursement
    let w := { w with heap := Function.update w.heap loan res.1 }
    match res.2 with
    | some err => some (w, (none, some (GoError.wrap "disburse failed" err)))
    | none =>
      let upd := uc.repoUpdate w loan
      some (upd.1, (some loan, upd.2))

/-- A generator that hands out 1000, 1001, 1002, ... -/
def sampleNode : snowflake.Node :=
  { ids := fun n => 1000 + n, issued := 0 }

/-- A heap for the examples: at address 0 a loan as a caller builds it before
`CreateLoan` or `Save` (identifier 0, principal 2000), at address 1 a loan with
identifier 7 and principal 3000, elsewhere an approved loan with identifier 7
and principal 2000, of which 900 is funded. -/
def sampleHeap : Heap := fun p =>
  if p = 0 then
    { ID := 0, BorrowerID := 1, Principal := 2000, Rate := 5, ROI := 6,
      State := "", Approval := none, Investments := [], Disbursement := none,
      AgreementLink := "link" }
  else if p = 1 then { approvedLoan with Principal := 3000 }
  else { approvedLoan with Principal := 2000, Investments := [⟨1, 900⟩] }

/-- A store for the examples: the one key 7, bound to the loan at address 2. -/
def sampleRepo : repository :=
  { snowflakeNode := sampleNode, loans := fun k => if k = 7 then some 2 else none }

/-- Whether a call is a call of `Publish`. -/
def Call.isPublish : Call → Bool
  | .Publish _ _ => true
  | _ => false

/-- The calls of `Publish` made from the world `w` to the world `w1` are `ps`:
the calls recorded in `w1` are those of `w` followed by new ones, and the
`Publish` calls among the new ones are `ps`, in order. -/
def PublishedBetween {σ : Type} (w w1 : World σ) (ps : List Call) : Prop :=
  ∃ new, w1.calls = w.calls ++ new ∧ new.filter Call.isPublish = ps

/-- The usecase over the store of the repository and the publisher `NewMock()`. -/
def sampleUsecase : usecase repository :=
  NewUsecase repository.toRepository pubsub.NewMock

/-- A world for the examples: the sample store and heap, no call made yet. -/
def sampleWorld : World repository :=
  { ext := sampleRepo, heap := sampleHeap, calls := [] }

/-- The usecase over the in-memory store `repository`, with the publisher
`pub`. -/
def storeUsecase (pub : pubsub.Mock repository) : usecase repository :=
  NewUsecase repository.toRepository pub

/-- An implementation of the publisher interface whose `Publish` fails with the
error `c` and writes nothing. -/
def failingMock (c : GoError) : pubsub.Mock repository :=
  { Publish := fun s h _ _ => ((s, h), some c) }

/-- A loan as a caller may hand it to `CreateLoan`: no identifier yet, but a
state, an approval, an investment and a disbursement already there. -/
def carriedLoan : Loan :=
  { ID := 0, BorrowerID := 4, Principal := 1000, Rate := 5, ROI := 6,
    State := StateDisbursed, Approval := some ⟨1, "https://proof.com", 0⟩,
    Investments := [⟨1, 1000⟩], Disbursement := some ⟨2, "https://agreement.com", 1⟩,
    AgreementLink := "link" }

/-- The sample world with `carriedLoan` at address 3. -/
def carriedWorld : World repository :=
  { ext := sampleRepo, heap := Function.update sampleHeap 3 carriedLoan, calls := [] }

/-- The sample heap with, at address 0, the loan of the scenario as the caller
builds it: principal 5000, rate 5, return 6, every other field zero. -/
def scenarioHeap : Heap :=
  Function.update sampleHeap 0
    { ID := 0, BorrowerID := 0, Principal := 5000, Rate := 5, ROI := 6,
      State := "", Approval := none, Investments := [], Disbursement := none,
      AgreementLink := "" }

end loan

namespace model

/-! ## Auxiliary facts -/

lemma stateOrder_eq_one (s : LoanState) : stateOrder s = 1 ↔ s = StateProposed := by
  unfold stateOrder
  split_ifs with h1 h2 h3 h4 <;> simp_all

lemma stateOrder_eq_two (s : LoanState) : stateOrder s = 2 ↔ s = StateApproved := by
  unfold stateOrder
  split_ifs with h1 h2 h3 h4
  · subst h1; simp; decide
  all_goals simp_all

lemma stateOrder_eq_three (s : LoanState) : stateOrder s = 3 ↔ s = StateInvested := by
  unfold stateOrder
  split_ifs with h1 h2 h3 h4
  · subst h1; simp; decide
  · subst h2; simp; decide
  all_goals simp_all

lemma stateOrder_Proposed : stateOrder StateProposed = 1 := by decide
lemma stateOrder_Approved : stateOrder StateApproved = 2 := by decide
lemma stateOrder_Invested : stateOrder StateInvested = 3 := by decide
lemma stateOrder_Disbursed : stateOrder StateDisbursed = 4 := by decide

lemma canTransitionTo_Approved (l : Loan) :
    l.CanTransitionTo StateApproved = true ↔ l.State = StateProposed := by
  rw [← stateOrder_eq_one]
  simp only [Loan.CanTransitionTo, stateOrder_Approved, beq_iff_eq]
  constructor <;> intro h <;> omega

lemma canTransitionTo_Invested (l : Loan) :
    l.CanTransitionTo StateInvested = true ↔ l.State = StateApproved := by
  rw [← stateOrder_eq_two]
  simp only [Loan.CanTransitionTo, stateOrder_Invested, beq_iff_eq]
  constructor <;> intro h <;> omega

lemma canTransitionTo_Disbursed (l : Loan) :
    l.CanTransitionTo StateDisbursed = true ↔ l.State = StateInvested := by
  rw [← stateOrder_eq_three]
  simp only [Loan.CanTransitionTo, stateOrder_Disbursed, beq_iff_eq]
  constructor <;> intro h <;> omega

lemma Float64.gt_of_eq (a b : Float64) (h : Float64.eq a b = true) :
    Float64.gt a b = false := by
  cases a with
  | fin x =>
    cases b with
    | fin y =>
      simp only [Float64.eq, decide_eq_true_eq] at h
      simp only [Float64.gt, h, lt_self_iff_false, decide_False]
    | inf nb => simp [Float64.eq] at h
    | nan => simp [Float64.eq] at h
  | inf na =>
    cases b with
    | fin y => simp [Float64.eq] at h
    | inf nb =>
      simp only [Float64.eq, beq_iff_eq] at h
      subst h
      cases na <;> rfl
    | nan => simp [Float64.eq] at h
  | nan => simp [Float64.eq] at h

/-- The test `total > l.Principal` is true or false. -/
lemma total_gt_cases (l : Loan) (inv : model.Investment) :
    Float64.gt (l.total inv) l.Principal = true ∨
    Float64.gt (l.total inv) l.Principal = false :=
  Bool.eq_false_or_eq_true _

/-- The test `total == l.Principal` is false or true. -/
lemma total_eq_cases (l : Loan) (inv : model.Investment) :
    Float64.eq (l.total inv) l.Principal = false ∨
    Float64.eq (l.total inv) l.Principal = true :=
  (Bool.eq_false_or_eq_true _).symm

lemma sumAmounts_append_singleton (invs : List model.Investment) (inv : model.Investment) :
    sumAmounts (invs ++ [inv]) = inv.Amount.toRat + sumAmounts invs := by
  simp [sumAmounts, add_comm]

lemma addInvestment_of_exceeds (l : Loan) (inv : model.Investment)
    (h : Float64.gt (l.total inv) l.Principal = true) :
    l.AddInvestment inv = (l, some (GoError.new "total investments exceed principal")) := by
  simp only [Loan.total] at h
  simp only [Loan.AddInvestment, h, if_true]

lemma addInvestment_of_wrong_state (l : Loan) (inv : model.Investment)
    (h : Float64.gt (l.total inv) l.Principal = false)
    (hs : l.State ≠ StateApproved) :
    l.AddInvestment inv = (l, some (GoError.new "can only invest when loan is approved")) := by
  have hc : l.CanTransitionTo StateInvested = false := by
    rw [← Bool.not_eq_true, canTransitionTo_Invested]; exact hs
  simp only [Loan.total] at h
  simp [Loan.AddInvestment, h, hc]

lemma addInvestment_of_full (l : Loan) (inv : model.Investment)
    (h : Float64.eq (l.total inv) l.Principal = true)
    (hs : l.State = StateApproved) :
    l.AddInvestment inv =
      ({ l with Investments := l.Investments ++ [inv], State := StateInvested }, none) := by
  have hc := (canTransitionTo_Invested l).2 hs
  have hg := Float64.gt_of_eq _ _ h
  simp only [Loan.total] at h hg
  simp [Loan.AddInvestment, h, hg, hc]

lemma addInvestment_of_under (l : Loan) (inv : model.Investment)
    (hg : Float64.gt (l.total inv) l.Principal = false)
    (h : Float64.eq (l.total inv) l.Principal = false)
    (hs : l.State = StateApproved) :
    l.AddInvestment inv = ({ l with Investments := l.Investments ++ [inv] }, none) := by
  have hc := (canTransitionTo_Invested l).2 hs
  simp only [Loan.total] at h hg
  simp [Loan.AddInvestment, h, hg, hc]

lemma approve_of_proposed (l : Loan) (a : model.Approval) (hs : l.State = StateProposed) :
    l.Approve a = ({ l with State := StateApproved, Approval := some a }, none) := by
  simp [Loan.Approve, (canTransitionTo_Approved l).2 hs]

lemma approve_of_wrong_state (l : Loan) (a : model.Approval) (hs : l.State ≠ StateProposed) :
    l.Approve a = (l, some (GoError.new "can only approve when loan is proposed")) := by
  have hc : l.CanTransitionTo StateApproved = false := by
    rw [← Bool.not_eq_true, canTransitionTo_Approved]; exact hs
  simp [Loan.Approve, hc]

lemma disburse_of_invested (l : Loan) (d : model.Disbursement) (hs : l.State = StateInvested) :
    l.Disburse d = ({ l with State := StateDisbursed, Disbursement := some d }, none) := by
  simp [Loan.Disburse, (canTransitionTo_Disbursed l).2 hs]

lemma disburse_of_wrong_state (l : Loan) (d : model.Disbursement)
    (hs : l.State ≠ StateInvested) :
    l.Disburse d = (l, some (GoError.new "can only disburse when loan is invested")) := by
  have hc : l.CanTransitionTo StateDisbursed = false := by
    rw [← Bool.not_eq_true, canTransitionTo_Disbursed]; exact hs
  simp [Loan.Disburse, hc]

/-! ## The transition guard -/

/-- C1. Between named states, `CanTransitionTo target` is true exactly when the
order of the target is the order of the current state plus one, the orders being
Proposed=1, Approved=2, Invested=3, Disbursed=4. So the only true pairs are
Proposed→Approved, Approved→Invested, Invested→Disbursed, and the guard is false
for a self-transition, for a backward target and for a skip. -/
theorem canTransitionTo_iff_next_order (l : Loan) (target : LoanState)
    (hcur : l.State ∈ namedStates) (htgt : target ∈ namedStates) :
    (stateOrder StateProposed = 1 ∧ stateOrder StateApproved = 2 ∧
      stateOrder StateInvested = 3 ∧ stateOrder StateDisbursed = 4) ∧
    (l.CanTransitionTo target = true ↔ stateOrder target = stateOrder l.State + 1) ∧
    (l.CanTransitionTo target = true ↔
      (l.State = StateProposed ∧ target = StateApproved) ∨
      (l.State = StateApproved ∧ target = StateInvested) ∨
      (l.State = StateInvested ∧ target = StateDisbursed)) ∧
    (target = l.State → l.CanTransitionTo target = false) ∧
    (stateOrder target < stateOrder l.State → l.CanTransitionTo target = false) ∧
    (stateOrder l.State + 1 < stateOrder target → l.CanTransitionTo target = false) := by
  refine ⟨⟨by decide, by decide, by decide, by decide⟩, ?_, ?_, ?_, ?_, ?_⟩
  · simp only [Loan.CanTransitionTo, beq_iff_eq]
    constructor <;> intro h <;> omega
  · simp only [namedStates, List.mem_cons, List.mem_singleton, List.not_mem_nil,
      or_false] at hcur htgt
    rcases hcur with h | h | h | h <;> rcases htgt with g | g | g | g <;>
      rw [h, g] <;> simp only [Loan.CanTransitionTo, h] <;> decide
  · intro h
    simp only [Loan.CanTransitionTo, h, beq_eq_false_iff_ne, ne_eq]
    omega
  · intro h
    simp only [Loan.CanTransitionTo, beq_eq_false_iff_ne, ne_eq]
    omega
  · intro h
    simp only [Loan.CanTransitionTo, beq_eq_false_iff_ne, ne_eq]
    omega

theorem canTransitionTo_iff_next_order_witness :
    (approvedLoan.CanTransitionTo StateInvested = true ↔
      stateOrder StateInvested = stateOrder approvedLoan.State + 1) ∧
    approvedLoan.CanTransitionTo StateInvested = true ∧
    approvedLoan.CanTransitionTo StateApproved = false ∧
    approvedLoan.CanTransitionTo StateProposed = false ∧
    approvedLoan.CanTransitionTo StateDisbursed = false :=
  ⟨(canTransitionTo_iff_next_order approvedLoan StateInvested
      (by decide) (by decide)).2.1,
    by decide, by decide, by decide, by decide⟩

/-! ## Approve -/

/-- C2. `Approve a` succeeds if and only if the state is Proposed; on success the
state is Approved and the approval record is `a`; in every state other than
Proposed (so in Approved, Invested and Disbursed) it fails with
"can only approve when loan is proposed". -/
theorem approve_succeeds_iff_proposed (l : Loan) (a : model.Approval) :
    ((l.Approve a).2 = none ↔ l.State = StateProposed) ∧
    ((l.Approve a).2 = none →
      (l.Approve a).1.State = StateApproved ∧ (l.Approve a).1.Approval = some a) ∧
    (l.State ≠ StateProposed →
      (l.Approve a).2 = some (GoError.new "can only approve when loan is proposed")) := by
  by_cases h : l.State = StateProposed
  · have hc := (canTransitionTo_Approved l).2 h
    simp [Loan.Approve, hc, h]
  · have hc : l.CanTransitionTo StateApproved = false := by
      rw [← Bool.not_eq_true, canTransitionTo_Approved]; exact h
    simp [Loan.Approve, hc, h]

theorem approve_succeeds_iff_proposed_witness :
    (approvedLoan.Approve ⟨2, "p", 1⟩).2 =
      some (GoError.new "can only approve when loan is proposed") :=
  (approve_succeeds_iff_proposed approvedLoan ⟨2, "p", 1⟩).2.2 (by decide)

/-! ## AddInvestment -/

/-- Counterexample to C3 as it is stated. Principal 1, nine investments of 0.1, a tenth
investment of 0.1: the amounts taken as exact numbers sum above the principal
(each is the `float64` nearest to 0.1, a little above 0.1), but the total the
code adds up in `float64` is 0.9999999999999999. The call succeeds and appends
the investment. -/
theorem addInvestment_exact_sum_over_principal_accepted :
    tenthsLoan.amountsAreValues = true ∧ tenth.isValue = true ∧
    tenth.toRat + sumAmounts tenthsLoan.Investments > tenthsLoan.Principal.toRat ∧
    tenthsLoan.total ⟨2, tenth⟩ = .fin (9007199254740991 / 9007199254740992) ∧
    (tenthsLoan.AddInvestment ⟨2, tenth⟩).2 = none ∧
    (tenthsLoan.AddInvestment ⟨2, tenth⟩).1.Investments
      = tenthsLoan.Investments ++ [⟨2, tenth⟩] := by
  decide!

/-- C3, amended. In any state, when the total that `AddInvestment` adds up in
`float64` (the amount of the new investment, then the existing amounts, each sum
rounded) is greater than the principal, `AddInvestment` fails with
"total investments exceed principal" and the investments are what they were. -/
theorem addInvestment_over_principal_rejected (l : Loan) (inv : model.Investment)
    (h : Float64.gt (l.total inv) l.Principal = true) :
    (l.AddInvestment inv).2 = some (GoError.new "total investments exceed principal") ∧
    (l.AddInvestment inv).1.Investments = l.Investments := by
  rw [addInvestment_of_exceeds l inv h]
  exact ⟨rfl, rfl⟩

theorem addInvestment_over_principal_rejected_witness :
    approvedLoan.Principal = 5000 ∧ approvedLoan.Investments = [⟨1, 2000⟩] ∧
    (approvedLoan.AddInvestment ⟨2, 3500⟩).2 =
      some (GoError.new "total investments exceed principal") ∧
    (approvedLoan.AddInvestment ⟨2, 3500⟩).1.Investments = [⟨1, 2000⟩] :=
  ⟨rfl, rfl, addInvestment_over_principal_rejected approvedLoan ⟨2, 3500⟩ (by decide!)⟩

lemma addInvestment_principal (l : Loan) (inv : model.Investment) :
    (l.AddInvestment inv).1.Principal = l.Principal := by
  simp only [Loan.AddInvestment]
  split_ifs <;> rfl

/-- A successful call found its total not above the principal, and appends. -/
lemma addInvestment_success (l : Loan) (inv : model.Investment)
    (h : (l.AddInvestment inv).2 = none) :
    Float64.gt (l.total inv) l.Principal = false ∧ l.State = StateApproved ∧
    (l.AddInvestment inv).1.Investments = l.Investments ++ [inv] := by
  rcases total_gt_cases l inv with hgt | hle
  · rw [addInvestment_of_exceeds l inv hgt] at h; simp at h
  · by_cases hs : l.State = StateApproved
    · rcases total_eq_cases l inv with hlt | heq
      · rw [addInvestment_of_under l inv hle hlt hs]
        exact ⟨hle, hs, rfl⟩
      · rw [addInvestment_of_full l inv heq hs]
        exact ⟨hle, hs, rfl⟩
    · rw [addInvestment_of_wrong_state l inv hle hs] at h; simp at h

lemma addInvestment_failure_same (l : Loan) (inv : model.Investment)
    (h : (l.AddInvestment inv).2 ≠ none) : (l.AddInvestment inv).1 = l := by
  rcases total_gt_cases l inv with hgt | hle
  · rw [addInvestment_of_exceeds l inv hgt]
  · by_cases hs : l.State = StateApproved
    · rcases total_eq_cases l inv with hlt | heq
      · rw [addInvestment_of_under l inv hle hlt hs] at h; simp at h
      · rw [addInvestment_of_full l inv heq hs] at h; simp at h
    · rw [addInvestment_of_wrong_state l inv hle hs]

lemma addInvestments_principal (invs : List model.Investment) (l : Loan) :
    (addInvestments l invs).Principal = l.Principal := by
  induction invs generalizing l with
  | nil => rfl
  | cons inv rest ih =>
    have hstep := ih (l.AddInvestment inv).1
    simp only [addInvestments, List.foldl_cons] at hstep ⊢
    exact hstep.trans (addInvestment_principal l inv)

/-- Counterexample to C4 as it is stated. Principal 1 and ten investments of 0.1, from a loan
with no investment: every call returns success, the last one too, and after it
the amounts taken as exact numbers sum above the principal. -/
theorem addInvestment_exact_sum_exceeds_after_success :
    unitLoan.amountsAreValues = true ∧ tenth.isValue = true ∧
    sumAmounts unitLoan.Investments ≤ unitLoan.Principal.toRat ∧
    addInvestments unitLoan (List.replicate 9 ⟨1, tenth⟩) = tenthsLoan ∧
    (tenthsLoan.AddInvestment ⟨2, tenth⟩).2 = none ∧
    sumAmounts (tenthsLoan.AddInvestment ⟨2, tenth⟩).1.Investments
      > tenthsLoan.Principal.toRat ∧
    sumAmounts (addInvestments unitLoan
        (List.replicate 9 ⟨1, tenth⟩ ++ [⟨2, tenth⟩])).Investments
      > unitLoan.Principal.toRat := by
  decide!

/-- C4, amended. When `AddInvestment` returns success, the total it added up
in `float64` is not greater than the principal, which the call does not change,
and the investment is appended. So along every sequence of `AddInvestment`
calls, from any loan, the principal stays what it was and each call that returns
success has added up a total that is not greater than the principal. -/
theorem addInvestment_sum_le_principal (l : Loan) (inv : model.Investment) :
    ((l.AddInvestment inv).2 = none →
      Float64.gt (l.total inv) l.Principal = false ∧
      (l.AddInvestment inv).1.Principal = l.Principal ∧
      (l.AddInvestment inv).1.Investments = l.Investments ++ [inv]) ∧
    (∀ (invs : List model.Investment) (k : ℕ) (next : model.Investment),
      (addInvestments l (invs.take k)).Principal = l.Principal ∧
      (((addInvestments l (invs.take k)).AddInvestment next).2 = none →
        Float64.gt ((addInvestments l (invs.take k)).total next) l.Principal = false)) := by
  refine ⟨fun h => ⟨(addInvestment_success l inv h).1, addInvestment_principal l inv,
    (addInvestment_success l inv h).2.2⟩, fun invs k next => ?_⟩
  have hp := addInvestments_principal (invs.take k) l
  refine ⟨hp, fun h => ?_⟩
  rw [← hp]
  exact (addInvestment_success _ next h).1

theorem addInvestment_sum_le_principal_witness :
    Float64.gt (approvedLoan.total ⟨2, 3000⟩) approvedLoan.Principal = false ∧
    (approvedLoan.AddInvestment ⟨2, 3000⟩).1.Investments = [⟨1, 2000⟩, ⟨2, 3000⟩] ∧
    Float64.gt ((addInvestments approvedLoan
      ([⟨2, 1000⟩, ⟨3, 2500⟩, ⟨4, 2000⟩, ⟨5, 1⟩].take 1)).total ⟨4, 2000⟩)
      approvedLoan.Principal = false :=
  ⟨((addInvestment_sum_le_principal approvedLoan ⟨2, 3000⟩).1 (by decide!)).1,
    ((addInvestment_sum_le_principal approvedLoan ⟨2, 3000⟩).1 (by decide!)).2.2,
    ((addInvestment_sum_le_principal approvedLoan ⟨2, 3000⟩).2
      [⟨2, 1000⟩, ⟨3, 2500⟩, ⟨4, 2000⟩, ⟨5, 1⟩] 1 ⟨4, 2000⟩).2 (by decide!)⟩

/-- Counterexample to C5 as it is stated. State Approved, principal `2 ^ 53 + 2`, investments
`2 ^ 53` and `1`, a new investment of `1`: the amounts taken as exact numbers
sum to the principal exactly, but the total the code adds up in `float64` is
`2 ^ 53`, since `1 + 2 ^ 53` rounds to `2 ^ 53`. The call succeeds and the loan
stays Approved. -/
theorem addInvestment_exact_sum_equal_stays_approved :
    roundedLoan.amountsAreValues = true ∧
    roundedLoan.State = StateApproved ∧
    (1 : Float64).toRat + sumAmounts roundedLoan.Investments
      = roundedLoan.Principal.toRat ∧
    roundedLoan.total ⟨3, 1⟩ = .fin 9007199254740992 ∧
    (roundedLoan.AddInvestment ⟨3, 1⟩).2 = none ∧
    (roundedLoan.AddInvestment ⟨3, 1⟩).1.State = StateApproved ∧
    (roundedLoan.AddInvestment ⟨3, 1⟩).1.State ≠ StateInvested := by
  decide!

/-- C5, amended. In state Approved, when the total that `AddInvestment` adds up
in `float64` is not greater than the principal, `AddInvestment` succeeds; the
state after is Invested when that total equals the principal (`==` of
`float64`) and is still Approved when it does not. -/
theorem addInvestment_approved_within_principal (l : Loan) (inv : model.Investment)
    (hs : l.State = StateApproved)
    (ht : Float64.gt (l.total inv) l.Principal = false) :
    (l.AddInvestment inv).2 = none ∧
    (Float64.eq (l.total inv) l.Principal = true →
      (l.AddInvestment inv).1.State = StateInvested) ∧
    (Float64.eq (l.total inv) l.Principal = false →
      (l.AddInvestment inv).1.State = StateApproved) := by
  rcases total_eq_cases l inv with hlt | heq
  · rw [addInvestment_of_under l inv ht hlt hs]
    exact ⟨rfl, fun h => absurd (hlt.symm.trans h) (by decide), fun _ => hs⟩
  · rw [addInvestment_of_full l inv heq hs]
    exact ⟨rfl, fun _ => rfl, fun h => absurd (heq.symm.trans h) (by decide)⟩

theorem addInvestment_approved_within_principal_witness :
    ((approvedLoan.AddInvestment ⟨2, 3000⟩).2 = none ∧
      (approvedLoan.AddInvestment ⟨2, 3000⟩).1.State = StateInvested) ∧
    ((approvedLoan.AddInvestment ⟨2, 1500⟩).2 = none ∧
      (approvedLoan.AddInvestment ⟨2, 1500⟩).1.State = StateApproved) :=
  ⟨⟨(addInvestment_approved_within_principal approvedLoan ⟨2, 3000⟩ rfl
        (by decide!)).1,
      (addInvestment_approved_within_principal approvedLoan ⟨2, 3000⟩ rfl
        (by decide!)).2.1 (by decide!)⟩,
    ⟨(addInvestment_approved_within_principal approvedLoan ⟨2, 1500⟩ rfl
        (by decide!)).1,
      (addInvestment_approved_within_principal approvedLoan ⟨2, 1500⟩ rfl
        (by decide!)).2.2 (by decide!)⟩⟩

/-- Counterexample to C6 as it is stated. State Invested, principal `2 ^ 53`, investments
`2 ^ 53 - 3`, `0.75`, `0.5` and `1.25` (a loan that successful calls reach), a new
investment of `0.5`: the amounts taken as exact numbers sum to the principal,
not above it, but the total the code adds up in `float64` is `2 ^ 53 + 2`. The
call fails with "total investments exceed principal", not with
"can only invest when loan is approved". -/
theorem addInvestment_wrong_state_reports_over_funding :
    fundedLoan.amountsAreValues = true ∧ (Float64.fin (1 / 2)).isValue = true ∧
    fundedLoan.State = StateInvested ∧
    ({ unitLoan with Principal := 9007199254740992 } : Loan).calls
      [.addInvestment ⟨1, 9007199254740989⟩, .addInvestment ⟨2, .fin (3 / 4)⟩,
        .addInvestment ⟨3, .fin (1 / 2)⟩, .addInvestment ⟨4, .fin (5 / 4)⟩] = fundedLoan ∧
    (Float64.fin (1 / 2)).toRat + sumAmounts fundedLoan.Investments
      ≤ fundedLoan.Principal.toRat ∧
    fundedLoan.total ⟨5, .fin (1 / 2)⟩ = .fin 9007199254740994 ∧
    (fundedLoan.AddInvestment ⟨5, .fin (1 / 2)⟩).2
      = some (GoError.new "total investments exceed principal") ∧
    (fundedLoan.AddInvestment ⟨5, .fin (1 / 2)⟩).2
      ≠ some (GoError.new "can only invest when loan is approved") := by
  decide!

/-- C6, amended. In state Proposed, Invested or Disbursed, when the total that
`AddInvestment` adds up in `float64` is not greater than the principal,
`AddInvestment` fails with "can only invest when loan is approved" and the
investment is not appended. -/
theorem addInvestment_wrong_state_rejected (l : Loan) (inv : model.Investment)
    (hs : l.State ∈ [StateProposed, StateInvested, StateDisbursed])
    (ht : Float64.gt (l.total inv) l.Principal = false) :
    (l.AddInvestment inv).2 = some (GoError.new "can only invest when loan is approved") ∧
    (l.AddInvestment inv).1.Investments = l.Investments := by
  have hne : l.State ≠ StateApproved := by
    simp only [List.mem_cons, List.mem_singleton, List.not_mem_nil, or_false] at hs
    rcases hs with h | h | h <;> rw [h] <;> decide
  rw [addInvestment_of_wrong_state l inv ht hne]
  exact ⟨rfl, rfl⟩

theorem addInvestment_wrong_state_rejected_witness :
    (proposedLoan.AddInvestment ⟨2, 1000⟩).2 =
      some (GoError.new "can only invest when loan is approved") ∧
    (proposedLoan.AddInvestment ⟨2, 1000⟩).1.Investments = [] :=
  addInvestment_wrong_state_rejected proposedLoan ⟨2, 1000⟩ (by decide) (by decide!)

/-! ## Disburse -/

/-- C7. `Disburse d` succeeds if and only if the state is Invested; on success the
state is Disbursed and the disbursement record is `d`; in every state other than
Invested (so in Proposed, Approved and Disbursed) it fails with
"can only disburse when loan is invested" and the state is unchanged. -/
theorem disburse_succeeds_iff_invested (l : Loan) (d : model.Disbursement) :
    ((l.Disburse d).2 = none ↔ l.State = StateInvested) ∧
    ((l.Disburse d).2 = none →
      (l.Disburse d).1.State = StateDisbursed ∧ (l.Disburse d).1.Disbursement = some d) ∧
    (l.State ≠ StateInvested →
      (l.Disburse d).2 = some (GoError.new "can only disburse when loan is invested") ∧
      (l.Disburse d).1.State = l.State) := by
  by_cases h : l.State = StateInvested
  · rw [disburse_of_invested l d h]
    simp [h]
  · rw [disburse_of_wrong_state l d h]
    simp [h]

theorem disburse_succeeds_iff_invested_witness :
    ((investedLoan.Disburse ⟨123, "https://agreement.com", 5⟩).1.State = StateDisbursed ∧
      (investedLoan.Disburse ⟨123, "https://agreement.com", 5⟩).1.Disbursement =
        some ⟨123, "https://agreement.com", 5⟩) ∧
    ((proposedLoan.Disburse ⟨123, "https://agreement.com", 5⟩).2 =
        some (GoError.new "can only disburse when loan is invested") ∧
      (proposedLoan.Disburse ⟨123, "https://agreement.com", 5⟩).1.State = StateProposed) :=
  ⟨(disburse_succeeds_iff_invested investedLoan ⟨123, "https://agreement.com", 5⟩).2.1
      (by decide),
    (disburse_succeeds_iff_invested proposedLoan ⟨123, "https://agreement.com", 5⟩).2.2
      (by decide)⟩

/-! ## Failure leaves the loan as it was -/

/-- C8. When `Approve`, `AddInvestment` or `Disburse` returns an error, the loan
after the call equals the loan before the call, so each of its ten fields is
what it was. -/
theorem failed_call_leaves_loan_unchanged (l : Loan) (a : model.Approval)
    (inv : model.Investment) (d : model.Disbursement) :
    ((l.Approve a).2 ≠ none → (l.Approve a).1 = l) ∧
    ((l.AddInvestment inv).2 ≠ none → (l.AddInvestment inv).1 = l) ∧
    ((l.Disburse d).2 ≠ none → (l.Disburse d).1 = l) := by
  refine ⟨fun h => ?_, addInvestment_failure_same l inv, fun h => ?_⟩
  · by_cases hs : l.State = StateProposed
    · rw [approve_of_proposed l a hs] at h; simp at h
    · rw [approve_of_wrong_state l a hs]
  · by_cases hs : l.State = StateInvested
    · rw [disburse_of_invested l d hs] at h; simp at h
    · rw [disburse_of_wrong_state l d hs]

theorem failed_call_leaves_loan_unchanged_witness :
    (approvedLoan.Approve ⟨2, "p", 1⟩).1 = approvedLoan ∧
    (approvedLoan.AddInvestment ⟨2, 3500⟩).1 = approvedLoan ∧
    (approvedLoan.Disburse ⟨3, "u", 2⟩).1 = approvedLoan :=
  ⟨(failed_call_leaves_loan_unchanged approvedLoan ⟨2, "p", 1⟩ ⟨2, 3500⟩ ⟨3, "u", 2⟩).1
      (by decide),
    (failed_call_leaves_loan_unchanged approvedLoan ⟨2, "p", 1⟩ ⟨2, 3500⟩ ⟨3, "u", 2⟩).2.1
      (by decide!),
    (failed_call_leaves_loan_unchanged approvedLoan ⟨2, "p", 1⟩ ⟨2, 3500⟩ ⟨3, "u", 2⟩).2.2
      (by decide)⟩

/-! ## Sequences of calls -/

lemma approve_failure_same (l : Loan) (a : model.Approval)
    (h : (l.Approve a).2 ≠ none) : (l.Approve a).1 = l := by
  by_cases hs : l.State = StateProposed
  · rw [approve_of_proposed l a hs] at h; simp at h
  · rw [approve_of_wrong_state l a hs]

lemma disburse_failure_same (l : Loan) (d : model.Disbursement)
    (h : (l.Disburse d).2 ≠ none) : (l.Disburse d).1 = l := by
  by_cases hs : l.State = StateInvested
  · rw [disburse_of_invested l d hs] at h; simp at h
  · rw [disburse_of_wrong_state l d hs]

lemma call_approve (l : Loan) (a : model.Approval) :
    l.call (.approve a) = l.Approve a := rfl

lemma call_addInvestment (l : Loan) (inv : model.Investment) :
    l.call (.addInvestment inv) = l.AddInvestment inv := rfl

lemma call_disburse (l : Loan) (d : model.Disbursement) :
    l.call (.disburse d) = l.Disburse d := rfl

lemma approved_named : StateApproved ∈ namedStates := by decide

lemma invested_named : StateInvested ∈ namedStates := by decide

lemma disbursed_named : StateDisbursed ∈ namedStates := by decide

lemma call_failure_same (l : Loan) (op : Op) (h : (l.call op).2 ≠ none) :
    (l.call op).1 = l := by
  cases op with
  | approve a => exact approve_failure_same l a h
  | addInvestment inv => exact addInvestment_failure_same l inv h
  | disburse d => exact disburse_failure_same l d h

/-- The state after one call is the state before, or the next named state. -/
lemma call_state (l : Loan) (op : Op) :
    (l.call op).1.State = l.State ∨
    (l.State = StateProposed ∧ (l.call op).1.State = StateApproved) ∨
    (l.State = StateApproved ∧ (l.call op).1.State = StateInvested) ∨
    (l.State = StateInvested ∧ (l.call op).1.State = StateDisbursed) := by
  cases op with
  | approve a =>
    by_cases hs : l.State = StateProposed
    · rw [call_approve, approve_of_proposed l a hs]
      exact Or.inr (Or.inl ⟨hs, rfl⟩)
    · rw [call_approve, approve_of_wrong_state l a hs]
      exact Or.inl rfl
  | addInvestment inv =>
    rcases total_gt_cases l inv with hgt | hle
    · rw [call_addInvestment, addInvestment_of_exceeds l inv hgt]
      exact Or.inl rfl
    · by_cases hs : l.State = StateApproved
      · rcases total_eq_cases l inv with hlt | heq
        · rw [call_addInvestment, addInvestment_of_under l inv hle hlt hs]
          exact Or.inl rfl
        · rw [call_addInvestment, addInvestment_of_full l inv heq hs]
          exact Or.inr (Or.inr (Or.inl ⟨hs, rfl⟩))
      · rw [call_addInvestment, addInvestment_of_wrong_state l inv hle hs]
        exact Or.inl rfl
  | disburse d =>
    by_cases hs : l.State = StateInvested
    · rw [call_disburse, disburse_of_invested l d hs]
      exact Or.inr (Or.inr (Or.inr ⟨hs, rfl⟩))
    · rw [call_disburse, disburse_of_wrong_state l d hs]
      exact Or.inl rfl

lemma call_order (l : Loan) (op : Op) :
    stateOrder (l.call op).1.State - stateOrder l.State = 0 ∨
    stateOrder (l.call op).1.State - stateOrder l.State = 1 := by
  rcases call_state l op with h | ⟨h, g⟩ | ⟨h, g⟩ | ⟨h, g⟩
  · left; rw [h]; omega
  · right; rw [h, g]; decide
  · right; rw [h, g]; decide
  · right; rw [h, g]; decide

lemma call_named (l : Loan) (op : Op) (hl : l.State ∈ namedStates) :
    (l.call op).1.State ∈ namedStates := by
  rcases call_state l op with h | ⟨_, g⟩ | ⟨_, g⟩ | ⟨_, g⟩
  · rw [h]; exact hl
  · rw [g]; decide
  · rw [g]; decide
  · rw [g]; decide

lemma calls_cons (l : Loan) (op : Op) (ops : List Op) :
    l.calls (op :: ops) = (l.call op).1.calls ops := rfl

/-- A property that every call preserves holds after every sequence of calls. -/
lemma calls_preserves (P : Loan → Prop) (hstep : ∀ m op, P m → P (m.call op).1)
    (ops : List Op) (l : Loan) (h : P l) : P (l.calls ops) := by
  induction ops generalizing l with
  | nil => exact h
  | cons op rest ih => rw [calls_cons]; exact ih _ (hstep l op h)

lemma calls_order_le (ops : List Op) (l : Loan) :
    stateOrder l.State ≤ stateOrder (l.calls ops).State := by
  induction ops generalizing l with
  | nil => exact le_refl _
  | cons op rest ih =>
    rw [calls_cons]
    have h1 := ih (l.call op).1
    have h2 := call_order l op
    omega

/-- C9. For each call of `Approve`, `AddInvestment` or `Disburse` on a loan in a
named state, the order of the state after minus the order of the state before is
0 or 1, and it is 0 when the call fails. Along every sequence of calls the state
stays a named state, its order never goes below the order at the start, and each
further call raises it by 0 or 1. -/
theorem state_order_moves_forward_one_step (l : Loan) (hl : l.State ∈ namedStates)
    (op : Op) :
    (stateOrder (l.call op).1.State - stateOrder l.State = 0 ∨
      stateOrder (l.call op).1.State - stateOrder l.State = 1) ∧
    ((l.call op).2 ≠ none → stateOrder (l.call op).1.State - stateOrder l.State = 0) ∧
    (∀ (ops : List Op) (next : Op),
      (l.calls ops).State ∈ namedStates ∧
      stateOrder l.State ≤ stateOrder (l.calls ops).State ∧
      (stateOrder ((l.calls ops).call next).1.State - stateOrder (l.calls ops).State = 0 ∨
        stateOrder ((l.calls ops).call next).1.State - stateOrder (l.calls ops).State
          = 1)) := by
  refine ⟨call_order l op, fun h => ?_, fun ops next => ⟨?_, calls_order_le ops l, ?_⟩⟩
  · rw [call_failure_same l op h]; omega
  · exact calls_preserves (fun m => m.State ∈ namedStates)
      (fun m o hm => call_named m o hm) ops l hl
  · exact call_order _ next

theorem state_order_moves_forward_one_step_witness :
    stateOrder (approvedLoan.call (.addInvestment ⟨2, 3500⟩)).1.State
      - stateOrder approvedLoan.State = 0 ∧
    (approvedLoan.calls [.addInvestment ⟨2, 3000⟩, .approve ⟨1, "p", 0⟩]).State
      ∈ namedStates :=
  ⟨(state_order_moves_forward_one_step approvedLoan (by decide)
      (.addInvestment ⟨2, 3500⟩)).2.1
      (by decide!),
    ((state_order_moves_forward_one_step approvedLoan (by decide)
      (.addInvestment ⟨2, 3500⟩)).2.2 _ (.disburse ⟨1, "u", 0⟩)).1⟩

/-! ## The funding invariant -/

lemma funded_of_investments (l m : Loan) (h : m.Investments = l.Investments) :
    m.funded = l.funded := by
  simp only [Loan.funded, h]

lemma funded_of_no_investment (l : Loan) (h : l.Investments = []) :
    l.funded = .fin 0 := by
  simp only [Loan.funded, h, List.reverse_nil]

lemma funded_of_appended (l m : Loan) (inv : model.Investment)
    (h : m.Investments = l.Investments ++ [inv]) : m.funded = l.total inv := by
  simp only [Loan.funded, Loan.total, h, List.reverse_append, List.reverse_cons,
    List.reverse_nil, List.nil_append, List.singleton_append, List.reverse_reverse]

lemma Float64.zero_below_of_gt_zero (p : Float64) (hp : Float64.gt p (.fin 0) = true) :
    Float64.gt (.fin 0) p = false ∧ Float64.eq (.fin 0) p = false := by
  cases p with
  | fin q =>
    simp only [Float64.gt, decide_eq_true_eq] at hp
    simp only [Float64.gt, Float64.eq, decide_eq_false_iff_not, not_lt]
    exact ⟨hp.le, fun h => absurd hp (by rw [← h]; exact lt_irrefl _)⟩
  | inf nb =>
    simp only [Float64.gt, Bool.not_eq_true'] at hp
    subst hp
    exact ⟨rfl, rfl⟩
  | nan => simp [Float64.gt] at hp

lemma fundingInv_call (p : Float64) (hp : Float64.gt p (.fin 0) = true) (l : Loan)
    (op : Op) (h : FundingInv p l) :
    FundingInv p (l.call op).1 := by
  obtain ⟨hP, hN, hProp, hApp, hFull⟩ := h
  have nAP : StateApproved ≠ StateProposed := by decide
  have nAI : StateApproved ≠ StateInvested := by decide
  have nAD : StateApproved ≠ StateDisbursed := by decide
  have nIP : StateInvested ≠ StateProposed := by decide
  have nIA : StateInvested ≠ StateApproved := by decide
  have nDP : StateDisbursed ≠ StateProposed := by decide
  have nDA : StateDisbursed ≠ StateApproved := by decide
  cases op with
  | approve a =>
    by_cases hs : l.State = StateProposed
    · rw [call_approve, approve_of_proposed l a hs]
      refine ⟨hP, approved_named, fun g => absurd g nAP, fun _ => ?_, fun g => ?_⟩
      · have h0 := Float64.zero_below_of_gt_zero p hp
        rw [← funded_of_no_investment l (hProp hs)] at h0
        exact h0
      · rcases g with g | g
        · exact absurd g nAI
        · exact absurd g nAD
    · rw [call_approve, approve_of_wrong_state l a hs]
      exact ⟨hP, hN, hProp, hApp, hFull⟩
  | addInvestment inv =>
    rcases total_gt_cases l inv with hgt | hle
    · rw [call_addInvestment, addInvestment_of_exceeds l inv hgt]
      exact ⟨hP, hN, hProp, hApp, hFull⟩
    · by_cases hs : l.State = StateApproved
      · rcases total_eq_cases l inv with hlt | heq
        · rw [call_addInvestment, addInvestment_of_under l inv hle hlt hs]
          refine ⟨hP, hN, fun g => ?_, fun _ => ?_, fun g => ?_⟩
          · exact absurd (hs.symm.trans g) nAP
          · rw [funded_of_appended l _ inv rfl, ← hP]
            exact ⟨hle, hlt⟩
          · rcases g with g | g
            · exact absurd (hs.symm.trans g) nAI
            · exact absurd (hs.symm.trans g) nAD
        · rw [call_addInvestment, addInvestment_of_full l inv heq hs]
          refine ⟨hP, invested_named, fun g => absurd g nIP, fun g => absurd g nIA,
            fun _ => ?_⟩
          rw [funded_of_appended l _ inv rfl, ← hP]
          exact heq
      · rw [call_addInvestment, addInvestment_of_wrong_state l inv hle hs]
        exact ⟨hP, hN, hProp, hApp, hFull⟩
  | disburse d =>
    by_cases hs : l.State = StateInvested
    · rw [call_disburse, disburse_of_invested l d hs]
      refine ⟨hP, disbursed_named, fun g => absurd g nDP, fun g => absurd g nDA,
        fun _ => ?_⟩
      exact hFull (Or.inl hs)
    · rw [call_disburse, disburse_of_wrong_state l d hs]
      exact ⟨hP, hN, hProp, hApp, hFull⟩

lemma demoOps_state : (proposedLoan.calls demoOps).State = StateDisbursed := by
  decide!

/-- Counterexample to C10 as it is stated. A loan in state Proposed of principal
`2 ^ 53`, with no investment, is approved and receives `2 ^ 53 - 1`, then `0.5`.
The code adds up `0.5 + (2 ^ 53 - 1)` in `float64`, which rounds to `2 ^ 53`, the
principal: the loan is Invested, while its amounts taken as exact numbers sum to
`2 ^ 53 - 0.5`, not to the principal. -/
theorem reachable_invested_loan_exact_sum_differs :
    (largeLoan.calls largeOps).amountsAreValues = true ∧
    largeLoan.State = StateProposed ∧
    Float64.gt largeLoan.Principal (.fin 0) = true ∧
    largeLoan.Investments = [] ∧
    (largeLoan.calls largeOps).State = StateInvested ∧
    sumAmounts (largeLoan.calls largeOps).Investments
      = 9007199254740992 - 1 / 2 ∧
    sumAmounts (largeLoan.calls largeOps).Investments
      ≠ (largeLoan.calls largeOps).Principal.toRat := by
  decide!

/-- C10, amended. Start from a loan in state Proposed whose principal is
greater than 0 and whose investments are empty, and make any finite sequence of
`Approve`, `AddInvestment` and `Disburse` calls, successful or not. The loan
reached has the principal it started with and a named state. If that state is
Proposed its investments are empty. If it is Approved, the funded total as the
code last added it up in `float64` (`0` with no investment) is neither greater
than the principal nor equal to it. If it is Invested or Disbursed, that total
equals the principal (`==` of `float64`). -/
theorem reachable_loan_funding_invariant (l0 : Loan) (ops : List Op)
    (hs : l0.State = StateProposed) (hp : Float64.gt l0.Principal (.fin 0) = true)
    (hi : l0.Investments = []) :
    (l0.calls ops).Principal = l0.Principal ∧
    (l0.calls ops).State ∈ namedStates ∧
    ((l0.calls ops).State = StateProposed → (l0.calls ops).Investments = []) ∧
    ((l0.calls ops).State = StateApproved →
      Float64.gt (l0.calls ops).funded (l0.calls ops).Principal = false ∧
      Float64.eq (l0.calls ops).funded (l0.calls ops).Principal = false) ∧
    ((l0.calls ops).State = StateInvested ∨ (l0.calls ops).State = StateDisbursed →
      Float64.eq (l0.calls ops).funded (l0.calls ops).Principal = true) := by
  have h0 : FundingInv l0.Principal l0 := by
    refine ⟨rfl, by rw [hs]; decide, fun _ => hi, fun g => ?_, fun g => ?_⟩
    · rw [hs] at g; exact absurd g (by decide)
    · rw [hs] at g; rcases g with g | g <;> exact absurd g (by decide)
  have h := calls_preserves (FundingInv l0.Principal)
    (fun m op hm => fundingInv_call l0.Principal hp m op hm) ops l0 h0
  obtain ⟨hP, hN, hProp, hApp, hFull⟩ := h
  rw [hP]
  exact ⟨rfl, hN, hProp, hApp, hFull⟩

theorem reachable_loan_funding_invariant_witness :
    Float64.eq (proposedLoan.calls demoOps).funded (proposedLoan.calls demoOps).Principal
      = true :=
  (reachable_loan_funding_invariant proposedLoan demoOps
    rfl (by decide!) rfl).2.2.2.2 (Or.inr demoOps_state)

/-! ## The approval and disbursement records -/

lemma addInvestment_approval (l : Loan) (inv : model.Investment) :
    (l.AddInvestment inv).1.Approval = l.Approval := by
  simp only [Loan.AddInvestment]
  split_ifs <;> rfl

lemma addInvestment_disbursement (l : Loan) (inv : model.Investment) :
    (l.AddInvestment inv).1.Disbursement = l.Disbursement := by
  simp only [Loan.AddInvestment]
  split_ifs <;> rfl

lemma addInvestment_state (l : Loan) (inv : model.Investment) :
    (l.AddInvestment inv).1.State = l.State ∨
    (l.State = StateApproved ∧ (l.AddInvestment inv).1.State = StateInvested) := by
  rcases call_state l (.addInvestment inv) with h | ⟨h, g⟩ | ⟨h, g⟩ | ⟨h, g⟩
  · exact Or.inl h
  · rcases total_gt_cases l inv with hgt | hle
    · rw [call_addInvestment, addInvestment_of_exceeds l inv hgt] at g
      exact absurd (h.symm.trans g) (by decide)
    · rw [call_addInvestment,
        addInvestment_of_wrong_state l inv hle (by rw [h]; decide)] at g
      exact absurd (h.symm.trans g) (by decide)
  · exact Or.inr ⟨h, g⟩
  · rcases total_gt_cases l inv with hgt | hle
    · rw [call_addInvestment, addInvestment_of_exceeds l inv hgt] at g
      exact absurd (h.symm.trans g) (by decide)
    · rw [call_addInvestment,
        addInvestment_of_wrong_state l inv hle (by rw [h]; decide)] at g
      exact absurd (h.symm.trans g) (by decide)

lemma recordsInv_call (l : Loan) (op : Op) (h : RecordsInv l) :
    RecordsInv (l.call op).1 := by
  cases op with
  | approve a =>
    by_cases hs : l.State = StateProposed
    · rw [call_approve, approve_of_proposed l a hs]
      rcases h with ⟨_, _, hd⟩ | ⟨g, _, _⟩ | ⟨g, _, _⟩ | ⟨g, _, _⟩
      · exact Or.inr (Or.inl ⟨rfl, Option.some_ne_none a, hd⟩)
      · exact absurd (g.symm.trans hs) (by decide)
      · exact absurd (g.symm.trans hs) (by decide)
      · exact absurd (g.symm.trans hs) (by decide)
    · rw [call_approve, approve_of_wrong_state l a hs]; exact h
  | addInvestment inv =>
    rw [call_addInvestment]
    unfold RecordsInv
    rw [addInvestment_approval, addInvestment_disbursement]
    rcases addInvestment_state l inv with g | ⟨g1, g2⟩
    · rw [g]; exact h
    · rw [g2]
      rcases h with ⟨g, _, _⟩ | ⟨_, ha, hd⟩ | ⟨g, _, _⟩ | ⟨g, _, _⟩
      · exact absurd (g.symm.trans g1) (by decide)
      · exact Or.inr (Or.inr (Or.inl ⟨rfl, ha, hd⟩))
      · exact absurd (g.symm.trans g1) (by decide)
      · exact absurd (g.symm.trans g1) (by decide)
  | disburse d =>
    by_cases hs : l.State = StateInvested
    · rw [call_disburse, disburse_of_invested l d hs]
      rcases h with ⟨g, _, _⟩ | ⟨g, _, _⟩ | ⟨_, ha, _⟩ | ⟨g, _, _⟩
      · exact absurd (g.symm.trans hs) (by decide)
      · exact absurd (g.symm.trans hs) (by decide)
      · exact Or.inr (Or.inr (Or.inr ⟨rfl, ha, Option.some_ne_none d⟩))
      · exact absurd (g.symm.trans hs) (by decide)
    · rw [call_disburse, disburse_of_wrong_state l d hs]; exact h

/-- C11. Start from a loan in state Proposed with no approval and no
disbursement, and make any finite sequence of `Approve`, `AddInvestment` and
`Disburse` calls. In the loan reached, the approval record is present exactly
when the state is Approved, Invested or Disbursed, and the disbursement record
is present exactly when the state is Disbursed. -/
theorem reachable_loan_records_present (l0 : Loan) (ops : List Op)
    (hs : l0.State = StateProposed) (ha : l0.Approval = none)
    (hd : l0.Disbursement = none) :
    ((l0.calls ops).Approval ≠ none ↔
      (l0.calls ops).State = StateApproved ∨ (l0.calls ops).State = StateInvested ∨
        (l0.calls ops).State = StateDisbursed) ∧
    ((l0.calls ops).Disbursement ≠ none ↔ (l0.calls ops).State = StateDisbursed) := by
  have h := calls_preserves RecordsInv recordsInv_call ops l0 (Or.inl ⟨hs, ha, hd⟩)
  have nPA : StateProposed ≠ StateApproved := by decide
  have nPI : StateProposed ≠ StateInvested := by decide
  have nPD : StateProposed ≠ StateDisbursed := by decide
  have nAD : StateApproved ≠ StateDisbursed := by decide
  have nID : StateInvested ≠ StateDisbursed := by decide
  rcases h with ⟨g, a, d⟩ | ⟨g, a, d⟩ | ⟨g, a, d⟩ | ⟨g, a, d⟩
  · rw [g, a, d]; simp [nPA, nPI, nPD]
  · rw [g, d]; simp [a, nAD]
  · rw [g, d]; simp [a, nID]
  · rw [g]; simp [a, d]

theorem reachable_loan_records_present_witness :
    (proposedLoan.calls demoOps).Approval ≠ none ∧
    (proposedLoan.calls demoOps).Disbursement ≠ none :=
  ⟨(reachable_loan_records_present proposedLoan demoOps rfl rfl rfl).1.2
      (Or.inr (Or.inr demoOps_state)),
    (reachable_loan_records_present proposedLoan demoOps rfl rfl rfl).2.2 demoOps_state⟩

/-- C12. On a loan in state Proposed, `Approve a1` succeeds, and `Approve a2`
made next on the same loan fails with "can only approve when loan is proposed";
after it the state is Approved and the approval record is still `a1`. -/
theorem approve_twice_second_fails (l : Loan) (a1 a2 : model.Approval)
    (hs : l.State = StateProposed) :
    (l.Approve a1).2 = none ∧
    ((l.Approve a1).1.Approve a2).2 =
      some (GoError.new "can only approve when loan is proposed") ∧
    ((l.Approve a1).1.Approve a2).1.State = StateApproved ∧
    ((l.Approve a1).1.Approve a2).1.Approval = some a1 := by
  rw [approve_of_proposed l a1 hs]
  have hne : ({ l with State := StateApproved, Approval := some a1 } : Loan).State
      ≠ StateProposed := by
    show StateApproved ≠ StateProposed
    decide
  rw [approve_of_wrong_state _ a2 hne]
  exact ⟨rfl, rfl, rfl, rfl⟩

theorem approve_twice_second_fails_witness :
    ((proposedLoan.Approve ⟨1, "p", 0⟩).1.Approve ⟨2, "q", 1⟩).2 =
      some (GoError.new "can only approve when loan is proposed") ∧
    ((proposedLoan.Approve ⟨1, "p", 0⟩).1.Approve ⟨2, "q", 1⟩).1.Approval =
      some ⟨1, "p", 0⟩ :=
  ⟨(approve_twice_second_fails proposedLoan ⟨1, "p", 0⟩ ⟨2, "q", 1⟩ rfl).2.1,
    (approve_twice_second_fails proposedLoan ⟨1, "p", 0⟩ ⟨2, "q", 1⟩ rfl).2.2.2⟩

/-! ## What a call leaves as it was -/

/-- C23. For every loan and every call of `Approve`, `AddInvestment` or
`Disburse`, with any argument, successful or not, the fields `ID`,
`BorrowerID`, `Principal`, `Rate`, `ROI` and `AgreementLink` after the call are
what they were before the call. -/
theorem call_keeps_creation_fields (l : Loan) (op : Op) :
    (l.call op).1.ID = l.ID ∧
    (l.call op).1.BorrowerID = l.BorrowerID ∧
    (l.call op).1.Principal = l.Principal ∧
    (l.call op).1.Rate = l.Rate ∧
    (l.call op).1.ROI = l.ROI ∧
    (l.call op).1.AgreementLink = l.AgreementLink := by
  cases op with
  | approve a =>
    simp only [Loan.call, Loan.Approve]
    split_ifs <;> exact ⟨rfl, rfl, rfl, rfl, rfl, rfl⟩
  | addInvestment inv =>
    simp only [Loan.call, Loan.AddInvestment]
    split_ifs <;> exact ⟨rfl, rfl, rfl, rfl, rfl, rfl⟩
  | disburse d =>
    simp only [Loan.call, Loan.Disburse]
    split_ifs <;> exact ⟨rfl, rfl, rfl, rfl, rfl, rfl⟩

lemma approve_investments (l : Loan) (a : model.Approval) :
    (l.Approve a).1.Investments = l.Investments := by
  simp only [Loan.Approve]
  split_ifs <;> rfl

lemma disburse_investments (l : Loan) (d : model.Disbursement) :
    (l.Disburse d).1.Investments = l.Investments := by
  simp only [Loan.Disburse]
  split_ifs <;> rfl

lemma addInvestment_success_investments (l : Loan) (inv : model.Investment)
    (h : (l.AddInvestment inv).2 = none) :
    (l.AddInvestment inv).1.Investments = l.Investments ++ [inv] :=
  (addInvestment_success l inv h).2.2

/-- C24. The investments only grow at the end: for every loan and every call of
`Approve`, `AddInvestment` or `Disburse`, the sequence before the call is a
prefix of the sequence after it. A successful `AddInvestment inv` leaves the old
sequence followed by `inv`; `Approve`, `Disburse` and every failed call leave
the sequence as it was. -/
theorem investments_append_only (l : Loan) (op : Op) :
    l.Investments <+: (l.call op).1.Investments ∧
    (∀ inv : model.Investment, (l.AddInvestment inv).2 = none →
      (l.AddInvestment inv).1.Investments = l.Investments ++ [inv]) ∧
    (∀ a : model.Approval, (l.Approve a).1.Investments = l.Investments) ∧
    (∀ d : model.Disbursement, (l.Disburse d).1.Investments = l.Investments) ∧
    ((l.call op).2 ≠ none → (l.call op).1.Investments = l.Investments) := by
  refine ⟨?_, addInvestment_success_investments l, approve_investments l,
    disburse_investments l, fun h => by rw [call_failure_same l op h]⟩
  cases op with
  | approve a => rw [call_approve, approve_investments]
  | addInvestment inv =>
    rw [call_addInvestment]
    by_cases h : (l.AddInvestment inv).2 = none
    · rw [addInvestment_success_investments l inv h]
      exact List.prefix_append _ _
    · rw [addInvestment_failure_same l inv h]
  | disburse d => rw [call_disburse, disburse_investments]

theorem investments_append_only_witness :
    (approvedLoan.AddInvestment ⟨2, 1500⟩).1.Investments = [⟨1, 2000⟩, ⟨2, 1500⟩] ∧
    (approvedLoan.call (.addInvestment ⟨2, 3500⟩)).1.Investments = [⟨1, 2000⟩] :=
  ⟨(investments_append_only approvedLoan (.approve ⟨1, "p", 0⟩)).2.1 ⟨2, 1500⟩
      (by decide!),
    (investments_append_only approvedLoan (.addInvestment ⟨2, 3500⟩)).2.2.2.2
      (by decide!)⟩

lemma calls_append (l : Loan) (xs ys : List Op) :
    l.calls (xs ++ ys) = (l.calls xs).calls ys := by
  simp only [Loan.calls, List.foldl_append]

lemma call_keeps_approval (l : Loan) (op : Op) (hs : l.State ≠ StateProposed) :
    (l.call op).1.State ≠ StateProposed ∧ (l.call op).1.Approval = l.Approval := by
  constructor
  · rcases call_state l op with h | ⟨h, _⟩ | ⟨_, g⟩ | ⟨_, g⟩
    · rw [h]; exact hs
    · exact absurd h hs
    · rw [g]; decide
    · rw [g]; decide
  · cases op with
    | approve a => rw [call_approve, approve_of_wrong_state l a hs]
    | addInvestment inv => rw [call_addInvestment, addInvestment_approval]
    | disburse d =>
      simp only [Loan.call, Loan.Disburse]
      split_ifs <;> rfl

lemma call_of_disbursed (l : Loan) (op : Op) (hs : l.State = StateDisbursed) :
    (l.call op).1 = l := by
  cases op with
  | approve a =>
    rw [call_approve, approve_of_wrong_state l a (by rw [hs]; decide)]
  | addInvestment inv =>
    rw [call_addInvestment]
    rcases total_gt_cases l inv with hgt | hle
    · rw [addInvestment_of_exceeds l inv hgt]
    · rw [addInvestment_of_wrong_state l inv hle (by rw [hs]; decide)]
  | disburse d =>
    rw [call_disburse, disburse_of_wrong_state l d (by rw [hs]; decide)]

/-- C25. The approval and the disbursement are written once. Along any finite
sequence of `Approve`, `AddInvestment` and `Disburse` calls, from any loan (so
from a loan in state Proposed): when a call `Approve a` succeeds, the approval
record is `a` after every sequence of later calls, later `Approve` calls with
another record included; when a call `Disburse d` succeeds, the disbursement
record is `d` after every sequence of later calls. -/
theorem records_written_once (l0 : Loan) (before later : List Op) :
    (∀ a : model.Approval, ((l0.calls before).Approve a).2 = none →
      (l0.calls (before ++ Op.approve a :: later)).Approval = some a) ∧
    (∀ d : model.Disbursement, ((l0.calls before).Disburse d).2 = none →
      (l0.calls (before ++ Op.disburse d :: later)).Disbursement = some d) := by
  refine ⟨fun a h => ?_, fun d h => ?_⟩
  · rw [calls_append, calls_cons, call_approve]
    have hs : (l0.calls before).State = StateProposed := by
      by_contra hne
      rw [approve_of_wrong_state _ a hne] at h
      simp at h
    rw [approve_of_proposed _ a hs]
    have hinv := calls_preserves
      (fun m => m.State ≠ StateProposed ∧ m.Approval = some a)
      (fun m op hm => ⟨(call_keeps_approval m op hm.1).1,
        (call_keeps_approval m op hm.1).2.trans hm.2⟩)
      later
      ({ l0.calls before with State := StateApproved, Approval := some a })
      ⟨by show StateApproved ≠ StateProposed; decide, rfl⟩
    exact hinv.2
  · rw [calls_append, calls_cons, call_disburse]
    have hs : (l0.calls before).State = StateInvested := by
      by_contra hne
      rw [disburse_of_wrong_state _ d hne] at h
      simp at h
    rw [disburse_of_invested _ d hs]
    have hinv := calls_preserves
      (fun m => m.State = StateDisbursed ∧ m.Disbursement = some d)
      (fun m op hm => by rw [call_of_disbursed m op hm.1]; exact hm)
      later
      ({ l0.calls before with State := StateDisbursed, Disbursement := some d })
      ⟨rfl, rfl⟩
    exact hinv.2

theorem records_written_once_witness :
    (proposedLoan.calls ([] ++ Op.approve ⟨1, "p", 0⟩ ::
      [.approve ⟨2, "q", 1⟩, .addInvestment ⟨1, 5000⟩, .approve ⟨3, "r", 2⟩])).Approval
      = some ⟨1, "p", 0⟩ ∧
    (investedLoan.calls ([] ++ Op.disburse ⟨1, "u", 0⟩ ::
      [.disburse ⟨2, "v", 1⟩, .approve ⟨3, "r", 2⟩])).Disbursement = some ⟨1, "u", 0⟩ :=
  ⟨(records_written_once proposedLoan []
      [.approve ⟨2, "q", 1⟩, .addInvestment ⟨1, 5000⟩, .approve ⟨3, "r", 2⟩]).1
      ⟨1, "p", 0⟩ (by decide),
    (records_written_once investedLoan [] [.disburse ⟨2, "v", 1⟩, .approve ⟨3, "r", 2⟩]).2
      ⟨1, "u", 0⟩ (by decide)⟩

/-- Counterexample to C30 as it is stated. State Approved, principal
`2 ^ 53 - 1`, investments `2 ^ 53 - 3`, `0.5` and `1.5` (a loan that successful calls
reach), a new investment of `-0.25`: the amounts taken as exact numbers sum to
`2 ^ 53 - 1.25`, below the principal, but the total the code adds up in `float64`
is `2 ^ 53`. The call fails with "total investments exceed principal" and
appends nothing. -/
theorem addInvestment_negative_amount_rejected :
    nearlyFilledLoan.amountsAreValues = true ∧ (Float64.fin (-1 / 4)).isValue = true ∧
    nearlyFilledLoan.State = StateApproved ∧
    ({ unitLoan with Principal := 9007199254740991 } : Loan).calls
      [.addInvestment ⟨1, 9007199254740989⟩, .addInvestment ⟨2, .fin (1 / 2)⟩,
        .addInvestment ⟨3, .fin (3 / 2)⟩] = nearlyFilledLoan ∧
    Float64.le (.fin (-1 / 4)) (.fin 0) = true ∧
    (Float64.fin (-1 / 4)).toRat + sumAmounts nearlyFilledLoan.Investments
      ≤ nearlyFilledLoan.Principal.toRat ∧
    nearlyFilledLoan.total ⟨5, .fin (-1 / 4)⟩ = .fin 9007199254740992 ∧
    (nearlyFilledLoan.AddInvestment ⟨5, .fin (-1 / 4)⟩).2
      = some (GoError.new "total investments exceed principal") ∧
    (nearlyFilledLoan.AddInvestment ⟨5, .fin (-1 / 4)⟩).1.Investments
      = nearlyFilledLoan.Investments := by
  decide!

lemma Float64.nonpos_of_le_zero (q : ℚ) (h : Float64.le (.fin q) (.fin 0) = true) :
    q ≤ 0 := by
  simp only [Float64.le, Float64.gt, Float64.eq, Bool.or_eq_true, decide_eq_true_eq] at h
  rcases h with h | h
  · exact h.le
  · exact h.le

/-- C30, amended. `AddInvestment` does not look at the sign of the amount. On a
loan in state Approved, an investment whose amount is zero or negative
(`<= 0` of `float64`), with the total that `AddInvestment` adds up in `float64`
not greater than the principal, is accepted and appended. When the amount is a
finite number `q`, the amounts taken as exact numbers then sum to the sum
before plus `q`: not above the sum before, and strictly below it when `q` is
negative. -/
theorem addInvestment_accepts_nonpositive_amount (l : Loan) (inv : model.Investment)
    (hs : l.State = StateApproved) (hn : Float64.le inv.Amount (.fin 0) = true)
    (ht : Float64.gt (l.total inv) l.Principal = false) :
    (l.AddInvestment inv).2 = none ∧
    (l.AddInvestment inv).1.Investments = l.Investments ++ [inv] ∧
    (∀ q : ℚ, inv.Amount = .fin q →
      q ≤ 0 ∧
      sumAmounts (l.AddInvestment inv).1.Investments = sumAmounts l.Investments + q ∧
      sumAmounts (l.AddInvestment inv).1.Investments ≤ sumAmounts l.Investments ∧
      (q < 0 →
        sumAmounts (l.AddInvestment inv).1.Investments < sumAmounts l.Investments)) := by
  have hok : (l.AddInvestment inv).2 = none := by
    rcases total_eq_cases l inv with hlt | heq
    · rw [addInvestment_of_under l inv ht hlt hs]
    · rw [addInvestment_of_full l inv heq hs]
  have hinv := addInvestment_success_investments l inv hok
  refine ⟨hok, hinv, fun q hq => ?_⟩
  have hq0 : q ≤ 0 := Float64.nonpos_of_le_zero q (by rw [← hq]; exact hn)
  have hsum : sumAmounts (l.AddInvestment inv).1.Investments
      = sumAmounts l.Investments + q := by
    rw [hinv, sumAmounts_append_singleton, hq]
    simp only [Float64.toRat]
    ring
  refine ⟨hq0, hsum, ?_, fun hneg => ?_⟩
  · rw [hsum]; linarith
  · rw [hsum]; linarith

theorem addInvestment_accepts_nonpositive_amount_witness :
    (approvedLoan.AddInvestment ⟨2, .fin (-500)⟩).2 = none ∧
    (approvedLoan.AddInvestment ⟨2, .fin (-500)⟩).1.Investments
      = [⟨1, 2000⟩, ⟨2, .fin (-500)⟩] ∧
    sumAmounts (approvedLoan.AddInvestment ⟨2, .fin (-500)⟩).1.Investments
      < sumAmounts approvedLoan.Investments :=
  ⟨(addInvestment_accepts_nonpositive_amount approvedLoan ⟨2, .fin (-500)⟩ rfl
      (by decide!) (by decide!)).1,
    (addInvestment_accepts_nonpositive_amount approvedLoan ⟨2, .fin (-500)⟩ rfl
      (by decide!) (by decide!)).2.1,
    ((addInvestment_accepts_nonpositive_amount approvedLoan ⟨2, .fin (-500)⟩ rfl
      (by decide!) (by decide!)).2.2 (-500) rfl).2.2.2 (by norm_num)⟩

end model

/-! ## The store -/

namespace loan

open model

lemma save_fst (r : repository) (heap : Heap) (p : LoanPtr) :
    (r.Save heap p).1.2 =
      (if (heap p).ID = 0 then
        Function.update heap p { heap p with ID := r.snowflakeNode.ids r.snowflakeNode.issued }
      else heap) ∧
    (r.Save heap p).1.1.snowflakeNode =
      (if (heap p).ID = 0 then
        { r.snowflakeNode with issued := r.snowflakeNode.issued + 1 }
      else r.snowflakeNode) := by
  unfold repository.Save
  by_cases h0 : (heap p).ID = 0
  · simp only [h0, if_true, snowflake.Node.Generate]
    split_ifs <;> exact ⟨rfl, rfl⟩
  · simp only [h0, if_false]
    split_ifs <;> exact ⟨rfl, rfl⟩

lemma save_of_key (r : repository) (heap : Heap) (p : LoanPtr)
    (hk : (r.loans ((r.Save heap p).1.2 p).ID).isSome = true) :
    (r.Save heap p).2 = some (GoError.new "loan already exists") ∧
    (r.Save heap p).1.1.loans = r.loans := by
  have hh := (save_fst r heap p).1
  unfold repository.Save at hk hh ⊢
  by_cases h0 : (heap p).ID = 0
  · simp only [h0, if_true] at hk hh ⊢
    split_ifs with h1
    · exact ⟨rfl, rfl⟩
    · rw [if_neg h1] at hk
      exact absurd hk h1
  · simp only [h0, if_false] at hk hh ⊢
    split_ifs with h1
    · exact ⟨rfl, rfl⟩
    · rw [if_neg h1] at hk
      exact absurd hk h1

lemma save_of_fresh (r : repository) (heap : Heap) (p : LoanPtr)
    (hk : r.loans ((r.Save heap p).1.2 p).ID = none) :
    (r.Save heap p).2 = none ∧
    (r.Save heap p).1.1.loans =
      Function.update r.loans ((r.Save heap p).1.2 p).ID (some p) := by
  unfold repository.Save at hk ⊢
  by_cases h0 : (heap p).ID = 0
  · simp only [h0, if_true] at hk ⊢
    split_ifs with h1
    · rw [if_pos h1] at hk
      rw [hk] at h1
      exact absurd h1 (by simp)
    · exact ⟨rfl, rfl⟩
  · simp only [h0, if_false] at hk ⊢
    split_ifs with h1
    · rw [if_pos h1] at hk
      rw [hk] at h1
      exact absurd h1 (by simp)
    · exact ⟨rfl, rfl⟩

/-- C13. `Save(loan)` on a store `r`, leaving the store `r1` and the heap
`heap1`. When the identifier of the loan is 0 it is first set to the next value
of the generator, which moves on by one; otherwise the loan is not written and
the generator is as it was; no other loan object is written. Then, with the
identifier the loan now has: when it is a key of the store, `Save` fails with
"loan already exists" and the map is unchanged; when it is not, `Save` succeeds,
the map binds that identifier to the loan, and every other entry is unchanged. -/
theorem save_assigns_id_then_inserts (r r1 : repository) (heap heap1 : Heap)
    (p : LoanPtr) (err : Option GoError)
    (hres : r.Save heap p = ((r1, heap1), err)) :
    ((heap p).ID = 0 →
      heap1 p = { heap p with ID := r.snowflakeNode.ids r.snowflakeNode.issued } ∧
      r1.snowflakeNode.ids = r.snowflakeNode.ids ∧
      r1.snowflakeNode.issued = r.snowflakeNode.issued + 1) ∧
    ((heap p).ID ≠ 0 → heap1 = heap ∧ r1.snowflakeNode = r.snowflakeNode) ∧
    (∀ q, q ≠ p → heap1 q = heap q) ∧
    ((r.loans (heap1 p).ID).isSome = true →
      err = some (GoError.new "loan already exists") ∧ r1.loans = r.loans) ∧
    (r.loans (heap1 p).ID = none →
      err = none ∧ r1.loans (heap1 p).ID = some p ∧
      ∀ k, k ≠ (heap1 p).ID → r1.loans k = r.loans k) := by
  have e1 : r1 = (r.Save heap p).1.1 := by rw [hres]
  have e2 : heap1 = (r.Save heap p).1.2 := by rw [hres]
  have e3 : err = (r.Save heap p).2 := by rw [hres]
  have hf := save_fst r heap p
  rw [← e1, ← e2] at hf
  refine ⟨fun h0 => ?_, fun h0 => ?_, fun q hq => ?_, fun hk => ?_, fun hk => ?_⟩
  · rw [hf.1, hf.2, if_pos h0, if_pos h0]
    exact ⟨Function.update_same _ _ _, rfl, rfl⟩
  · rw [hf.1, hf.2, if_neg h0, if_neg h0]
    exact ⟨rfl, rfl⟩
  · rw [hf.1]
    split_ifs
    · exact Function.update_noteq hq _ _
    · rfl
  · rw [e2] at hk
    rw [e1, e3]
    exact save_of_key r heap p hk
  · rw [e2] at hk
    have h := save_of_fresh r heap p hk
    rw [e1, e2, e3]
    refine ⟨h.1, ?_, fun k hne => ?_⟩
    · rw [h.2]; exact Function.update_same _ _ _
    · rw [h.2]; exact Function.update_noteq hne _ _

theorem save_assigns_id_then_inserts_witness :
    (sampleRepo.Save sampleHeap 0).2 = none ∧
    (sampleRepo.Save sampleHeap 0).1.1.loans ((sampleRepo.Save sampleHeap 0).1.2 0).ID
      = some 0 ∧
    ((sampleRepo.Save sampleHeap 0).1.2 0).ID = 1000 ∧
    (sampleRepo.Save sampleHeap 1).2 = some (GoError.new "loan already exists") :=
  ⟨((save_assigns_id_then_inserts sampleRepo _ sampleHeap _ 0 _ rfl).2.2.2.2
      (by decide)).1,
    ((save_assigns_id_then_inserts sampleRepo _ sampleHeap _ 0 _ rfl).2.2.2.2
      (by decide)).2.1,
    by decide,
    ((save_assigns_id_then_inserts sampleRepo _ sampleHeap _ 1 _ rfl).2.2.2.1
      (by decide)).1⟩

lemma findByID_of_key (r : repository) (id : Int) (p : LoanPtr)
    (h : r.loans id = some p) : r.FindByID id = (some p, none) := by
  simp only [repository.FindByID, h]

lemma findByID_of_no_key (r : repository) (id : Int) (h : r.loans id = none) :
    r.FindByID id = (none, some (GoError.new "loan not found")) := by
  simp only [repository.FindByID, h]

/-- C14. `Save` then `FindByID`: for a loan whose identifier is 0, when the next
value of the generator is not 0 and is not a key of the store, `Save` succeeds,
the identifier of the loan is then not 0, and `FindByID` with that identifier
succeeds and returns that same loan, whose fields other than the identifier are
what they were before `Save`. -/
theorem save_then_findByID (r r1 : repository) (heap heap1 : Heap) (p : LoanPtr)
    (err : Option GoError)
    (hid : (heap p).ID = 0)
    (hgen : r.snowflakeNode.ids r.snowflakeNode.issued ≠ 0)
    (hfresh : r.loans (r.snowflakeNode.ids r.snowflakeNode.issued) = none)
    (hres : r.Save heap p = ((r1, heap1), err)) :
    err = none ∧ (heap1 p).ID ≠ 0 ∧
    r1.FindByID (heap1 p).ID = (some p, none) ∧
    heap1 p = { heap p with ID := r.snowflakeNode.ids r.snowflakeNode.issued } ∧
    (heap1 p).Principal = (heap p).Principal := by
  have e1 : r1 = (r.Save heap p).1.1 := by rw [hres]
  have e2 : heap1 = (r.Save heap p).1.2 := by rw [hres]
  have e3 : err = (r.Save heap p).2 := by rw [hres]
  have hobj : heap1 p =
      { heap p with ID := r.snowflakeNode.ids r.snowflakeNode.issued } := by
    rw [e2, (save_fst r heap p).1, if_pos hid]
    exact Function.update_same _ _ _
  have hidn : (heap1 p).ID = r.snowflakeNode.ids r.snowflakeNode.issued := by
    rw [hobj]
  have hk : r.loans ((r.Save heap p).1.2 p).ID = none := by
    rw [← e2, hidn]; exact hfresh
  have h := save_of_fresh r heap p hk
  refine ⟨e3.trans h.1, by rw [hidn]; exact hgen, ?_, hobj, by rw [hobj]⟩
  apply findByID_of_key
  rw [e1, h.2, ← e2]
  exact Function.update_same _ _ _

theorem save_then_findByID_witness :
    ((sampleRepo.Save sampleHeap 0).1.2 0).ID ≠ 0 ∧
    (sampleRepo.Save sampleHeap 0).1.1.FindByID ((sampleRepo.Save sampleHeap 0).1.2 0).ID
      = (some 0, none) ∧
    ((sampleRepo.Save sampleHeap 0).1.2 0).Principal = (sampleHeap 0).Principal :=
  ⟨(save_then_findByID sampleRepo _ sampleHeap _ 0 _ (by decide) (by decide) (by decide)
      rfl).2.1,
    (save_then_findByID sampleRepo _ sampleHeap _ 0 _ (by decide) (by decide) (by decide)
      rfl).2.2.1,
    (save_then_findByID sampleRepo _ sampleHeap _ 0 _ (by decide) (by decide) (by decide)
      rfl).2.2.2.2⟩

/-- C15. `Update(loan)` on a store `r`, leaving the store `r1` (the heap is not
written). When the identifier of the loan is not a key, `Update` fails with
"loan not found" and the store is unchanged. When it is a key, `Update`
succeeds, `FindByID` with that identifier then returns the loan given to
`Update`, the identifiers that are keys are the same as before, and every other
entry is unchanged. -/
theorem update_replaces_existing (r r1 : repository) (heap : Heap) (p : LoanPtr)
    (err : Option GoError) (hres : r.Update heap p = (r1, err)) :
    (r.loans (heap p).ID = none →
      err = some (GoError.new "loan not found") ∧ r1 = r) ∧
    (r.loans (heap p).ID ≠ none →
      err = none ∧ r1.FindByID (heap p).ID = (some p, none) ∧
      (∀ k, (r1.loans k).isSome = (r.loans k).isSome) ∧
      (∀ k, k ≠ (heap p).ID → r1.loans k = r.loans k)) := by
  have e1 : r1 = (r.Update heap p).1 := by rw [hres]
  have e3 : err = (r.Update heap p).2 := by rw [hres]
  refine ⟨fun hk => ?_, fun hk => ?_⟩
  · rw [e1, e3]
    simp only [repository.Update, hk, Option.isSome_none, Bool.false_eq_true,
      not_false_eq_true, if_true, and_self]
  · have hs : (r.loans (heap p).ID).isSome = true := Option.isSome_iff_ne_none.mpr hk
    have hl : r1.loans = Function.update r.loans (heap p).ID (some p) := by
      rw [e1]
      simp only [repository.Update, hs, not_true_eq_false, if_false]
    refine ⟨?_, ?_, fun k => ?_, fun k hne => ?_⟩
    · rw [e3]
      simp only [repository.Update, hs, not_true_eq_false, if_false]
    · apply findByID_of_key
      rw [hl]; exact Function.update_same _ _ _
    · rw [hl]
      by_cases hkk : k = (heap p).ID
      · rw [hkk, Function.update_same, hs]; rfl
      · rw [Function.update_noteq hkk]
    · rw [hl]; exact Function.update_noteq hne _ _

theorem update_replaces_existing_witness :
    (sampleHeap 2).Principal = 2000 ∧ (sampleHeap 1).Principal = 3000 ∧
    sampleRepo.FindByID 7 = (some 2, none) ∧
    (sampleRepo.Update sampleHeap 1).2 = none ∧
    (sampleRepo.Update sampleHeap 1).1.FindByID 7 = (some 1, none) ∧
    (sampleRepo.Update sampleHeap 0).2 = some (GoError.new "loan not found") :=
  ⟨by decide!, by decide!, by decide,
    ((update_replaces_existing sampleRepo _ sampleHeap 1 _ rfl).2 (by decide)).1,
    ((update_replaces_existing sampleRepo _ sampleHeap 1 _ rfl).2 (by decide)).2.1,
    ((update_replaces_existing sampleRepo _ sampleHeap 0 _ rfl).1 (by decide)).1⟩

/-- C16. `FindByID` fails with "loan not found" for every identifier on a store
just made by `NewRepository`, and on any store for every identifier that is not
a key; for an identifier that is a key it does not fail and returns the loan
bound to it. -/
theorem findByID_fails_iff_no_key (node : snowflake.Node) (r : repository) (id : Int) :
    (∃ r0, NewRepository (node, none) = some r0 ∧
      r0.FindByID id = (none, some (GoError.new "loan not found"))) ∧
    (r.loans id = none → r.FindByID id = (none, some (GoError.new "loan not found"))) ∧
    (r.loans id ≠ none → (r.FindByID id).2 = none ∧ (r.FindByID id).1 = r.loans id) := by
  refine ⟨⟨_, rfl, rfl⟩, findByID_of_no_key r id, fun hk => ?_⟩
  obtain ⟨p, hp⟩ := Option.ne_none_iff_exists'.mp hk
  rw [findByID_of_key r id p hp, hp]
  exact ⟨rfl, rfl⟩

theorem findByID_fails_iff_no_key_witness :
    sampleRepo.FindByID 999999 = (none, some (GoError.new "loan not found")) ∧
    (sampleRepo.FindByID 7).2 = none :=
  ⟨(findByID_fails_iff_no_key sampleNode sampleRepo 999999).2.1 (by decide),
    ((findByID_fails_iff_no_key sampleNode sampleRepo 7).2.2 (by decide)).1⟩

/-! ## The usecase -/

/-- C17. `CreateLoan(loan)` makes one call on its collaborators, `Save`, with
the loan it was given; at that call the loan has state Proposed, whatever its
state was, and its other fields are as given. What `CreateLoan` returns is what
that `Save` returns, the error as it is, and the store and the memory are left
as `Save` leaves them. -/
theorem createLoan_saves_once_as_proposed {σ : Type} (uc : usecase σ) (w : World σ)
    (p : LoanPtr) :
    (uc.CreateLoan w p).1.calls =
      w.calls ++ [Call.Save p { w.heap p with State := StateProposed }] ∧
    ({ w.heap p with State := StateProposed } : Loan).State = StateProposed ∧
    (uc.CreateLoan w p).2 =
      (uc.repo.Save w.ext
        (Function.update w.heap p { w.heap p with State := StateProposed }) p).2 ∧
    ((uc.CreateLoan w p).1.ext, (uc.CreateLoan w p).1.heap) =
      (uc.repo.Save w.ext
        (Function.update w.heap p { w.heap p with State := StateProposed }) p).1 := by
  refine ⟨?_, rfl, rfl, rfl⟩
  simp only [usecase.CreateLoan, usecase.repoSave, Function.update_same]

theorem createLoan_saves_once_as_proposed_witness :
    (sampleUsecase.CreateLoan sampleWorld 1).2 = some (GoError.new "loan already exists") ∧
    (sampleUsecase.CreateLoan sampleWorld 1).1.calls =
      [Call.Save 1 { sampleHeap 1 with State := StateProposed }] :=
  ⟨(createLoan_saves_once_as_proposed sampleUsecase sampleWorld 1).2.2.1.trans
      (by decide),
    (createLoan_saves_once_as_proposed sampleUsecase sampleWorld 1).1⟩

/-- C18. In `ApproveLoan`, `AddInvestment` and `DisburseLoan`: when `FindByID`
returns a loan and the state-machine call on that loan fails with cause `c`,
the operation returns no loan and the error whose text is "approval failed: ",
"investment failed: " or "disburse failed: " followed by the text of `c`, and
whose wrapped cause is `c`. The one call made on the collaborators is
`FindByID`: neither `Update` nor `Publish` is called. The store and the memory
are as `FindByID` left them. -/
theorem failed_transition_is_wrapped {σ : Type} (uc : usecase σ) (w : World σ)
    (id : Int) (p : LoanPtr) (s1 : σ) (h1 : Heap)
    (hfind : uc.repo.FindByID w.ext w.heap id = ((s1, h1), (some p, none))) :
    (∀ (a : model.Approval) (c : GoError), ((h1 p).Approve a).2 = some c →
      uc.ApproveLoan w id a =
        some ({ ext := s1, heap := h1, calls := w.calls ++ [Call.FindByID id] },
          (none, some (GoError.wrap "approval failed" c))) ∧
      (GoError.wrap "approval failed" c).Error = "approval failed: " ++ c.Error ∧
      (GoError.wrap "approval failed" c).Unwrap = some c) ∧
    (∀ (inv : model.Investment) (c : GoError), ((h1 p).AddInvestment inv).2 = some c →
      uc.AddInvestment w id inv =
        some ({ ext := s1, heap := h1, calls := w.calls ++ [Call.FindByID id] },
          (none, some (GoError.wrap "investment failed" c))) ∧
      (GoError.wrap "investment failed" c).Error = "investment failed: " ++ c.Error ∧
      (GoError.wrap "investment failed" c).Unwrap = some c) ∧
    (∀ (d : model.Disbursement) (c : GoError), ((h1 p).Disburse d).2 = some c →
      uc.DisburseLoan w id d =
        some ({ ext := s1, heap := h1, calls := w.calls ++ [Call.FindByID id] },
          (none, some (GoError.wrap "disburse failed" c))) ∧
      (GoError.wrap "disburse failed" c).Error = "disburse failed: " ++ c.Error ∧
      (GoError.wrap "disburse failed" c).Unwrap = some c) := by
  refine ⟨fun a c hc => ⟨?_, rfl, rfl⟩, fun inv c hc => ⟨?_, rfl, rfl⟩,
    fun d c hc => ⟨?_, rfl, rfl⟩⟩
  · have hsame : ((h1 p).Approve a).1 = h1 p :=
      approve_failure_same (h1 p) a (by rw [hc]; exact Option.some_ne_none c)
    simp only [usecase.ApproveLoan, usecase.repoFindByID, hfind, hc, hsame,
      Function.update_eq_self]
  · have hsame : ((h1 p).AddInvestment inv).1 = h1 p :=
      addInvestment_failure_same (h1 p) inv (by rw [hc]; exact Option.some_ne_none c)
    simp only [usecase.AddInvestment, usecase.repoFindByID, hfind, hc, hsame,
      Function.update_eq_self]
  · have hsame : ((h1 p).Disburse d).1 = h1 p :=
      disburse_failure_same (h1 p) d (by rw [hc]; exact Option.some_ne_none c)
    simp only [usecase.DisburseLoan, usecase.repoFindByID, hfind, hc, hsame,
      Function.update_eq_self]

theorem failed_transition_is_wrapped_witness :
    (sampleUsecase.ApproveLoan sampleWorld 7 ⟨1, "p", 0⟩).map (fun r => r.2) =
      some (none, some (GoError.wrap "approval failed"
        (GoError.new "can only approve when loan is proposed"))) ∧
    (GoError.wrap "approval failed"
        (GoError.new "can only approve when loan is proposed")).Error =
      "approval failed: can only approve when loan is proposed" :=
  ⟨by
      rw [((failed_transition_is_wrapped sampleUsecase sampleWorld 7 2 sampleRepo
        sampleHeap rfl).1 ⟨1, "p", 0⟩
        (GoError.new "can only approve when loan is proposed") (by decide)).1]
      rfl,
    by decide⟩

/-- C19. In `ApproveLoan`, `AddInvestment` and `DisburseLoan`: when `FindByID`
fails with the error `e`, the operation returns no loan and that same `e`, not
wrapped. The one call made on the collaborators is `FindByID`: neither `Update`
nor `Publish` is called; the store and the memory are as `FindByID` left them,
so no loan object is written by the operation. -/
theorem findByID_error_returned_as_is {σ : Type} (uc : usecase σ) (w : World σ)
    (id : Int) (e : GoError)
    (hfind : (uc.repo.FindByID w.ext w.heap id).2.2 = some e) :
    (∀ a : model.Approval, uc.ApproveLoan w id a =
      some ({ ext := (uc.repo.FindByID w.ext w.heap id).1.1,
              heap := (uc.repo.FindByID w.ext w.heap id).1.2,
              calls := w.calls ++ [Call.FindByID id] }, (none, some e))) ∧
    (∀ inv : model.Investment, uc.AddInvestment w id inv =
      some ({ ext := (uc.repo.FindByID w.ext w.heap id).1.1,
              heap := (uc.repo.FindByID w.ext w.heap id).1.2,
              calls := w.calls ++ [Call.FindByID id] }, (none, some e))) ∧
    (∀ d : model.Disbursement, uc.DisburseLoan w id d =
      some ({ ext := (uc.repo.FindByID w.ext w.heap id).1.1,
              heap := (uc.repo.FindByID w.ext w.heap id).1.2,
              calls := w.calls ++ [Call.FindByID id] }, (none, some e))) := by
  refine ⟨fun a => ?_, fun inv => ?_, fun d => ?_⟩
  · simp only [usecase.ApproveLoan, usecase.repoFindByID, hfind]
  · simp only [usecase.AddInvestment, usecase.repoFindByID, hfind]
  · simp only [usecase.DisburseLoan, usecase.repoFindByID, hfind]

theorem findByID_error_returned_as_is_witness :
    (sampleUsecase.AddInvestment sampleWorld 999999 ⟨1, 100⟩).map (fun r => r.2) =
      some (none, some (GoError.new "loan not found")) :=
  by
    rw [(findByID_error_returned_as_is sampleUsecase sampleWorld 999999
      (GoError.new "loan not found") (by decide)).2.1 ⟨1, 100⟩]
    rfl

/-- C20. A call of `AddInvestment(id, inv)` of the usecase calls `Publish`
exactly once, with the topic "loan_invested" and the agreement of the loan as
data, when the state-machine call succeeded and left the loan in state Invested.
It calls `Publish` not at all when the loan is not found, when the state-machine
call fails, and when the state-machine call succeeds and the loan is not in
state Invested after it (funded in part, it stays Approved). -/
theorem addInvestment_publishes_once_iff_invested {σ : Type} (uc : usecase σ)
    (w : World σ) (id : Int) (inv : model.Investment) :
    (∀ e, (uc.repo.FindByID w.ext w.heap id).2.2 = some e →
      ∃ w1 res, uc.AddInvestment w id inv = some (w1, res) ∧
        PublishedBetween w w1 []) ∧
    (∀ p s1 h1, uc.repo.FindByID w.ext w.heap id = ((s1, h1), (some p, none)) →
      (((h1 p).AddInvestment inv).2 ≠ none →
        ∃ w1 res, uc.AddInvestment w id inv = some (w1, res) ∧
          PublishedBetween w w1 []) ∧
      (((h1 p).AddInvestment inv).2 = none →
        ((h1 p).AddInvestment inv).1.State ≠ StateInvested →
        ∃ w1 res, uc.AddInvestment w id inv = some (w1, res) ∧
          PublishedBetween w w1 []) ∧
      (((h1 p).AddInvestment inv).2 = none →
        ((h1 p).AddInvestment inv).1.State = StateInvested →
        ∃ w1 res, uc.AddInvestment w id inv = some (w1, res) ∧
          PublishedBetween w w1
            [Call.Publish "loan_invested" ⟨⟨((h1 p).AddInvestment inv).1.ID⟩⟩])) := by
  refine ⟨fun e he => ?_, fun p s1 h1 hfind => ⟨fun hc => ?_, fun hok hst => ?_,
    fun hok hst => ?_⟩⟩
  · simp only [usecase.AddInvestment, usecase.repoFindByID, he]
    exact ⟨_, _, rfl, [Call.FindByID id], rfl, rfl⟩
  · obtain ⟨c, hc⟩ := Option.ne_none_iff_exists'.mp hc
    simp only [usecase.AddInvestment, usecase.repoFindByID, hfind, hc]
    exact ⟨_, _, rfl, [Call.FindByID id], rfl, rfl⟩
  · simp only [usecase.AddInvestment, usecase.repoFindByID, hfind, hok,
      Function.update_same, hst, if_false, usecase.repoUpdate]
    exact ⟨_, _, rfl, [Call.FindByID id, Call.Update p ((h1 p).AddInvestment inv).1],
      by simp only [List.append_assoc, List.singleton_append], rfl⟩
  · cases hpub : (uc.pubsub.Publish s1 (Function.update h1 p ((h1 p).AddInvestment inv).1)
        "loan_invested" ⟨⟨((h1 p).AddInvestment inv).1.ID⟩⟩).2 with
    | some c =>
      simp only [usecase.AddInvestment, usecase.repoFindByID, hfind, hok,
        Function.update_same, hst, if_true, json.Marshal, usecase.pubsubPublish, hpub]
      exact ⟨_, _, rfl, [Call.FindByID id,
        Call.Publish "loan_invested" ⟨⟨((h1 p).AddInvestment inv).1.ID⟩⟩],
        by simp only [List.append_assoc, List.singleton_append], rfl⟩
    | none =>
      simp only [usecase.AddInvestment, usecase.repoFindByID, hfind, hok,
        Function.update_same, hst, if_true, json.Marshal, usecase.pubsubPublish, hpub,
        usecase.repoUpdate]
      exact ⟨_, _, rfl, [Call.FindByID id,
        Call.Publish "loan_invested" ⟨⟨((h1 p).AddInvestment inv).1.ID⟩⟩,
        Call.Update p ((uc.pubsub.Publish s1
          (Function.update h1 p ((h1 p).AddInvestment inv).1)
          "loan_invested" ⟨⟨((h1 p).AddInvestment inv).1.ID⟩⟩).1.2 p)],
        by simp only [List.append_assoc, List.singleton_append, List.cons_append,
          List.nil_append], rfl⟩

theorem addInvestment_publishes_once_iff_invested_witness :
    ((sampleHeap 2).AddInvestment ⟨2, 1100⟩).1.ID = 7 ∧
    (∃ w1 res, sampleUsecase.AddInvestment sampleWorld 7 ⟨2, 1100⟩ = some (w1, res) ∧
      PublishedBetween sampleWorld w1
        [Call.Publish "loan_invested" ⟨⟨((sampleHeap 2).AddInvestment ⟨2, 1100⟩).1.ID⟩⟩]) ∧
    (∃ w1 res, sampleUsecase.AddInvestment sampleWorld 7 ⟨2, 100⟩ = some (w1, res) ∧
      PublishedBetween sampleWorld w1 []) :=
  ⟨by decide!,
    ((addInvestment_publishes_once_iff_invested sampleUsecase sampleWorld 7 ⟨2, 1100⟩).2
      2 sampleRepo sampleHeap rfl).2.2 (by decide!) (by decide!),
    ((addInvestment_publishes_once_iff_invested sampleUsecase sampleWorld 7 ⟨2, 100⟩).2
      2 sampleRepo sampleHeap rfl).2.1 (by decide!) (by decide!)⟩

/-- C21. In a call of `AddInvestment` of the usecase that completes the funding
(the state-machine call succeeds and leaves the loan Invested), `Publish` is
called before `Update`. When `Publish` fails with cause `c`, the usecase returns
no loan and the error whose text is "publish loan invested failed: " followed
by the text of `c`, with `c` as wrapped cause, and `Update` is not called: the
calls made are `FindByID` then `Publish`. When `Publish` succeeds the calls made
are `FindByID`, `Publish`, `Update`, in this order. -/
theorem publish_failure_aborts_update {σ : Type} (uc : usecase σ) (w : World σ)
    (id : Int) (p : LoanPtr) (s1 : σ) (h1 : Heap) (inv : model.Investment)
    (hfind : uc.repo.FindByID w.ext w.heap id = ((s1, h1), (some p, none)))
    (hok : ((h1 p).AddInvestment inv).2 = none)
    (hst : ((h1 p).AddInvestment inv).1.State = StateInvested) :
    (∀ c : GoError,
      (uc.pubsub.Publish s1 (Function.update h1 p ((h1 p).AddInvestment inv).1)
        "loan_invested" ⟨⟨((h1 p).AddInvestment inv).1.ID⟩⟩).2 = some c →
      (∃ w1, uc.AddInvestment w id inv =
          some (w1, (none, some (GoError.wrap "publish loan invested failed" c))) ∧
        w1.calls = w.calls ++ [Call.FindByID id,
          Call.Publish "loan_invested" ⟨⟨((h1 p).AddInvestment inv).1.ID⟩⟩]) ∧
      (GoError.wrap "publish loan invested failed" c).Error =
        "publish loan invested failed: " ++ c.Error ∧
      (GoError.wrap "publish loan invested failed" c).Unwrap = some c) ∧
    ((uc.pubsub.Publish s1 (Function.update h1 p ((h1 p).AddInvestment inv).1)
        "loan_invested" ⟨⟨((h1 p).AddInvestment inv).1.ID⟩⟩).2 = none →
      ∃ w1 res seen, uc.AddInvestment w id inv = some (w1, res) ∧
        w1.calls = w.calls ++ [Call.FindByID id,
          Call.Publish "loan_invested" ⟨⟨((h1 p).AddInvestment inv).1.ID⟩⟩,
          Call.Update p seen]) := by
  refine ⟨fun c hpub => ⟨?_, rfl, rfl⟩, fun hpub => ?_⟩
  · simp only [usecase.AddInvestment, usecase.repoFindByID, hfind, hok,
      Function.update_same, hst, if_true, json.Marshal, usecase.pubsubPublish, hpub]
    exact ⟨_, rfl, by simp only [List.append_assoc, List.singleton_append]⟩
  · simp only [usecase.AddInvestment, usecase.repoFindByID, hfind, hok,
      Function.update_same, hst, if_true, json.Marshal, usecase.pubsubPublish, hpub,
      usecase.repoUpdate]
    exact ⟨_, _, (uc.pubsub.Publish s1 (Function.update h1 p ((h1 p).AddInvestment inv).1)
        "loan_invested" ⟨⟨((h1 p).AddInvestment inv).1.ID⟩⟩).1.2 p, rfl,
      by simp only [List.append_assoc, List.singleton_append, List.cons_append,
        List.nil_append]⟩

theorem publish_failure_aborts_update_witness :
    ∃ w1, (storeUsecase (failingMock (GoError.new "down"))).AddInvestment sampleWorld 7
        ⟨2, 1100⟩ =
      some (w1, (none, some (GoError.wrap "publish loan invested failed"
        (GoError.new "down")))) ∧
      w1.calls = sampleWorld.calls ++ [Call.FindByID 7,
        Call.Publish "loan_invested" ⟨⟨((sampleHeap 2).AddInvestment ⟨2, 1100⟩).1.ID⟩⟩] :=
  ((publish_failure_aborts_update (storeUsecase (failingMock (GoError.new "down")))
    sampleWorld 7 2 sampleRepo sampleHeap ⟨2, 1100⟩ rfl (by decide!) (by decide!)).1
    (GoError.new "down") rfl).1

/-- Counterexample to C27 as it is stated. State Invested, principal `2 ^ 53`,
one investment of `2 ^ 53` (the loan that `Approve` and one `AddInvestment` reach),
a new investment of 1: the state is not Approved and the amount plus the sum of
the existing amounts is `2 ^ 53 + 1`, more than the principal. The total the
code adds up in `float64` is `2 ^ 53`, not greater than the principal, so the
over-funding check passes and the call fails with
"can only invest when loan is approved"; the usecase over the store returns
"investment failed: can only invest when loan is approved". -/
theorem wrong_state_reported_despite_exact_over_funding :
    model.filledLoan.amountsAreValues = true ∧
    model.filledLoan.State ≠ StateApproved ∧
    ({ model.unitLoan with Principal := 9007199254740992, State := StateProposed } : Loan).calls
      [.approve ⟨1, "p", 0⟩, .addInvestment ⟨1, 9007199254740992⟩]
      = { model.filledLoan with Approval := some ⟨1, "p", 0⟩ } ∧
    (Float64.toRat 1 + model.sumAmounts model.filledLoan.Investments
      > model.filledLoan.Principal.toRat) ∧
    model.filledLoan.total ⟨5, 1⟩ = .fin 9007199254740992 ∧
    (model.filledLoan.AddInvestment ⟨5, 1⟩).2
      = some (GoError.new "can only invest when loan is approved") ∧
    ((storeUsecase pubsub.NewMock).AddInvestment
        { ext := sampleRepo, heap := fun _ => model.filledLoan, calls := [] } 7 ⟨5, 1⟩).map
      (fun r => (r.2.1, r.2.2.map GoError.Error))
      = some (none, some "investment failed: can only invest when loan is approved") := by
  exact ⟨by decide!, by decide, by decide!, by decide!, by decide!, by decide!, by decide!⟩

/-- C27, amended. In `AddInvestment` the over-funding check comes before the state
check. For a loan whose state is not Approved, so that the state check would
fail, and an investment for which the total that `AddInvestment` adds up in
`float64` (the new amount, then the existing amounts added to it in order, each
sum rounded) is greater than the principal, `Loan.AddInvestment` fails with
"total investments exceed principal". The usecase, when `FindByID` returns such
a loan, returns the error with the text
"investment failed: total investments exceed principal", which contains
"investments exceed principal" and does not contain
"can only invest when loan is approved". -/
theorem over_funding_reported_before_wrong_state (l : Loan) (inv : model.Investment)
    (hs : l.State ≠ StateApproved)
    (ht : Float64.gt (l.total inv) l.Principal = true) :
    l.CanTransitionTo StateInvested = false ∧
    (l.AddInvestment inv).2 = some (GoError.new "total investments exceed principal") ∧
    (∀ {σ : Type} (uc : usecase σ) (w : World σ) (id : Int) (p : LoanPtr) (s1 : σ)
      (h1 : Heap),
      uc.repo.FindByID w.ext w.heap id = ((s1, h1), (some p, none)) → h1 p = l →
      ∃ w1 e, uc.AddInvestment w id inv = some (w1, (none, some e)) ∧
        e.Error = "investment failed: total investments exceed principal" ∧
        "investments exceed principal".data <:+: e.Error.data ∧
        ¬ ("can only invest when loan is approved".data <:+: e.Error.data)) := by
  have herr := addInvestment_of_exceeds l inv ht
  refine ⟨?_, by rw [herr], fun uc w id p s1 h1 hfind hl => ?_⟩
  · rw [← Bool.not_eq_true, canTransitionTo_Invested]; exact hs
  · subst hl
    simp only [usecase.AddInvestment, usecase.repoFindByID, hfind, herr]
    exact ⟨_, _, rfl, by decide, by decide, by decide⟩

theorem over_funding_reported_before_wrong_state_witness :
    ({ investedLoan with Principal := 0, Investments := [] } : Loan).AddInvestment
        ⟨1, 100⟩ =
      ({ investedLoan with Principal := 0, Investments := [] },
        some (GoError.new "total investments exceed principal")) :=
  Prod.ext
    (addInvestment_failure_same _ _ (by
      rw [(over_funding_reported_before_wrong_state
        { investedLoan with Principal := 0, Investments := [] } ⟨1, 100⟩
        (by decide) (by decide!)).2.1]
      exact Option.some_ne_none _))
    (over_funding_reported_before_wrong_state
      { investedLoan with Principal := 0, Investments := [] } ⟨1, 100⟩
      (by decide) (by decide!)).2.1

/-! ## The usecase over the in-memory store -/

lemma storeUsecase_find (pub : pubsub.Mock repository) (w : World repository) (id : Int)
    (p : LoanPtr) (hb : w.ext.loans id = some p) :
    (storeUsecase pub).repoFindByID w id =
      ({ ext := w.ext, heap := w.heap, calls := w.calls ++ [Call.FindByID id] },
        (some p, none)) := by
  simp only [usecase.repoFindByID, storeUsecase, NewUsecase, repository.toRepository,
    findByID_of_key _ _ _ hb]

lemma update_of_bound (r : repository) (heap : Heap) (p : LoanPtr)
    (hb : r.loans (heap p).ID = some p) : r.Update heap p = (r, none) := by
  have hs : (r.loans (heap p).ID).isSome = true := by rw [hb]; rfl
  have hl : Function.update r.loans (heap p).ID (some p) = r.loans := by
    rw [← hb]; exact Function.update_eq_self _ _
  simp only [repository.Update, hs, not_true_eq_false, if_false, hl]

lemma storeUsecase_update (pub : pubsub.Mock repository) (w : World repository)
    (p : LoanPtr) (hb : w.ext.loans (w.heap p).ID = some p) :
    (storeUsecase pub).repoUpdate w p =
      ({ ext := w.ext, heap := w.heap, calls := w.calls ++ [Call.Update p (w.heap p)] },
        none) := by
  simp only [usecase.repoUpdate, storeUsecase, NewUsecase, repository.toRepository,
    update_of_bound _ _ _ hb]

lemma storeUsecase_approveLoan (pub : pubsub.Mock repository) (w : World repository)
    (id : Int) (p : LoanPtr) (a : model.Approval)
    (hb : w.ext.loans id = some p) (hid : (w.heap p).ID = id)
    (hs : (w.heap p).State = StateProposed) :
    (storeUsecase pub).ApproveLoan w id a =
      some ({ ext := w.ext,
              heap := Function.update w.heap p
                { w.heap p with State := StateApproved, Approval := some a },
              calls := w.calls ++ [Call.FindByID id,
                Call.Update p { w.heap p with State := StateApproved, Approval := some a }] },
        (some p, none)) := by
  have hu := storeUsecase_update pub
    { ext := w.ext,
      heap := Function.update w.heap p
        { w.heap p with State := StateApproved, Approval := some a },
      calls := w.calls ++ [Call.FindByID id] } p
    (by simp only [Function.update_same]; rw [hid]; exact hb)
  simp only [usecase.ApproveLoan, storeUsecase_find pub w id p hb,
    approve_of_proposed _ a hs, hu, Function.update_same, List.append_assoc,
    List.singleton_append]

lemma storeUsecase_disburseLoan (pub : pubsub.Mock repository) (w : World repository)
    (id : Int) (p : LoanPtr) (d : model.Disbursement)
    (hb : w.ext.loans id = some p) (hid : (w.heap p).ID = id)
    (hs : (w.heap p).State = StateInvested) :
    (storeUsecase pub).DisburseLoan w id d =
      some ({ ext := w.ext,
              heap := Function.update w.heap p
                { w.heap p with State := StateDisbursed, Disbursement := some d },
              calls := w.calls ++ [Call.FindByID id,
                Call.Update p
                  { w.heap p with State := StateDisbursed, Disbursement := some d }] },
        (some p, none)) := by
  have hu := storeUsecase_update pub
    { ext := w.ext,
      heap := Function.update w.heap p
        { w.heap p with State := StateDisbursed, Disbursement := some d },
      calls := w.calls ++ [Call.FindByID id] } p
    (by simp only [Function.update_same]; rw [hid]; exact hb)
  simp only [usecase.DisburseLoan, storeUsecase_find pub w id p hb,
    disburse_of_invested _ d hs, hu, Function.update_same, List.append_assoc,
    List.singleton_append]

/-- `AddInvestment` of the usecase over the store, when the investment completes
the funding, up to the call of `Publish`. -/
lemma storeUsecase_addInvestment_full (pub : pubsub.Mock repository)
    (w : World repository) (id : Int) (p : LoanPtr) (inv : model.Investment)
    (hb : w.ext.loans id = some p)
    (hs : (w.heap p).State = StateApproved)
    (ht : Float64.eq ((w.heap p).total inv) (w.heap p).Principal = true) :
    (storeUsecase pub).AddInvestment w id inv =
      (match ((storeUsecase pub).pubsubPublish
          { ext := w.ext,
            heap := Function.update w.heap p
              { w.heap p with
                Investments := (w.heap p).Investments ++ [inv], State := StateInvested },
            calls := w.calls ++ [Call.FindByID id] }
          "loan_invested" ⟨⟨(w.heap p).ID⟩⟩) with
        | (w1, some err) =>
          some (w1, (none, some (GoError.wrap "publish loan invested failed" err)))
        | (w1, none) =>
          some (((storeUsecase pub).repoUpdate w1 p).1,
            (some p, ((storeUsecase pub).repoUpdate w1 p).2))) := by
  simp only [usecase.AddInvestment, storeUsecase_find pub w id p hb,
    addInvestment_of_full _ inv ht hs, Function.update_same, if_true, json.Marshal]
  rcases hp : (storeUsecase pub).pubsubPublish
      { ext := w.ext,
        heap := Function.update w.heap p
          { w.heap p with
            Investments := (w.heap p).Investments ++ [inv], State := StateInvested },
        calls := w.calls ++ [Call.FindByID id] }
      "loan_invested" ⟨⟨(w.heap p).ID⟩⟩ with ⟨w1, _ | err⟩ <;> rfl

lemma storeUsecase_addInvestment_full_published (w : World repository) (id : Int)
    (p : LoanPtr) (inv : model.Investment)
    (hb : w.ext.loans id = some p) (hid : (w.heap p).ID = id)
    (hs : (w.heap p).State = StateApproved)
    (ht : Float64.eq ((w.heap p).total inv) (w.heap p).Principal = true) :
    (storeUsecase pubsub.NewMock).AddInvestment w id inv =
      some ({ ext := w.ext,
              heap := Function.update w.heap p
                { w.heap p with
                  Investments := (w.heap p).Investments ++ [inv], State := StateInvested },
              calls := w.calls ++ [Call.FindByID id,
                Call.Publish "loan_invested" ⟨⟨id⟩⟩,
                Call.Update p
                  { w.heap p with
                    Investments := (w.heap p).Investments ++ [inv],
                    State := StateInvested }] },
        (some p, none)) := by
  have hu := storeUsecase_update pubsub.NewMock
    { ext := w.ext,
      heap := Function.update w.heap p
        { w.heap p with
          Investments := (w.heap p).Investments ++ [inv], State := StateInvested },
      calls := (w.calls ++ [Call.FindByID id]) ++
        [Call.Publish "loan_invested" ⟨⟨(w.heap p).ID⟩⟩] } p
    (by simp only [Function.update_same]; rw [hid]; exact hb)
  rw [storeUsecase_addInvestment_full pubsub.NewMock w id p inv hb hs ht]
  simp only [usecase.pubsubPublish, storeUsecase, NewUsecase, pubsub.NewMock] at hu ⊢
  rw [hu, hid]
  simp only [Function.update_same, List.append_assoc, List.singleton_append,
    List.cons_append, List.nil_append]

lemma storeUsecase_createLoan (pub : pubsub.Mock repository) (w : World repository)
    (p : LoanPtr) :
    ((storeUsecase pub).CreateLoan w p).1.heap p =
      { w.heap p with
        State := StateProposed,
        ID := if (w.heap p).ID = 0 then w.ext.snowflakeNode.ids w.ext.snowflakeNode.issued
          else (w.heap p).ID } ∧
    (w.ext.loans (((storeUsecase pub).CreateLoan w p).1.heap p).ID = none →
      ((storeUsecase pub).CreateLoan w p).2 = none ∧
      ((storeUsecase pub).CreateLoan w p).1.ext.loans
        (((storeUsecase pub).CreateLoan w p).1.heap p).ID = some p) ∧
    ((w.ext.loans (((storeUsecase pub).CreateLoan w p).1.heap p).ID).isSome = true →
      ((storeUsecase pub).CreateLoan w p).2 = some (GoError.new "loan already exists") ∧
      ((storeUsecase pub).CreateLoan w p).1.ext.loans = w.ext.loans) := by
  have e1 : ((storeUsecase pub).CreateLoan w p).1.heap =
      (w.ext.Save (Function.update w.heap p { w.heap p with State := StateProposed })
        p).1.2 := rfl
  have e2 : ((storeUsecase pub).CreateLoan w p).1.ext =
      (w.ext.Save (Function.update w.heap p { w.heap p with State := StateProposed })
        p).1.1 := rfl
  have e3 : ((storeUsecase pub).CreateLoan w p).2 =
      (w.ext.Save (Function.update w.heap p { w.heap p with State := StateProposed })
        p).2 := rfl
  rw [e1, e2, e3]
  refine ⟨?_, fun hk => ?_, fun hk => save_of_key _ _ _ hk⟩
  · rw [(save_fst _ _ _).1]
    simp only [Function.update_same]
    split_ifs with h0
    · simp only [Function.update_same]
    · exact Function.update_same _ _ _
  · have h := save_of_fresh _ _ _ hk
    exact ⟨h.1, by rw [h.2]; exact Function.update_same _ _ _⟩

lemma approveLoan_step (pub : pubsub.Mock repository) (w : World repository)
    (id : Int) (p : LoanPtr) (a : model.Approval)
    (hb : w.ext.loans id = some p) (hid : (w.heap p).ID = id)
    (hs : (w.heap p).State = StateProposed) :
    ∃ w1, (storeUsecase pub).ApproveLoan w id a = some (w1, (some p, none)) ∧
      w1.ext = w.ext ∧
      w1.heap p = { w.heap p with State := StateApproved, Approval := some a } :=
  ⟨_, storeUsecase_approveLoan pub w id p a hb hid hs, rfl, Function.update_same _ _ _⟩

lemma disburseLoan_step (pub : pubsub.Mock repository) (w : World repository)
    (id : Int) (p : LoanPtr) (d : model.Disbursement)
    (hb : w.ext.loans id = some p) (hid : (w.heap p).ID = id)
    (hs : (w.heap p).State = StateInvested) :
    ∃ w1, (storeUsecase pub).DisburseLoan w id d = some (w1, (some p, none)) ∧
      w1.ext = w.ext ∧
      w1.heap p = { w.heap p with State := StateDisbursed, Disbursement := some d } :=
  ⟨_, storeUsecase_disburseLoan pub w id p d hb hid hs, rfl, Function.update_same _ _ _⟩

lemma addInvestment_full_step (w : World repository) (id : Int) (p : LoanPtr)
    (inv : model.Investment)
    (hb : w.ext.loans id = some p) (hid : (w.heap p).ID = id)
    (hs : (w.heap p).State = StateApproved)
    (ht : Float64.eq ((w.heap p).total inv) (w.heap p).Principal = true) :
    ∃ w1, (storeUsecase pubsub.NewMock).AddInvestment w id inv =
        some (w1, (some p, none)) ∧
      w1.ext = w.ext ∧
      w1.heap p = { w.heap p with
        Investments := (w.heap p).Investments ++ [inv], State := StateInvested } ∧
      PublishedBetween w w1 [Call.Publish "loan_invested" ⟨⟨id⟩⟩] :=
  ⟨_, storeUsecase_addInvestment_full_published w id p inv hb hid hs ht, rfl,
    Function.update_same _ _ _, ⟨_, rfl, rfl⟩⟩

/-- C22. The scenario from creation to disbursement, over the in-memory store
just made by `NewRepository` and the publisher `NewMock()`, whose `Publish`
succeeds. The loan given to `CreateLoan` has no identifier yet, principal 5000,
rate 5, return 6 and no investment. `CreateLoan` succeeds and the loan is
stored in state Proposed under the identifier `id` it was given; `ApproveLoan`
returns it in state Approved; `AddInvestment` with amount 5000 returns it in
state Invested, `Publish` being called exactly once, with the topic
"loan_invested"; `DisburseLoan` returns it in state Disbursed. After each step
`FindByID id` on the store returns the loan, in the state just reached. This
holds for any approval and disbursement records, such as validator 1 and
officer 1. -/
theorem create_approve_invest_disburse (node : snowflake.Node) (r0 : repository)
    (heap : Heap) (p : LoanPtr) (a : model.Approval) (inv : model.Investment)
    (d : model.Disbursement)
    (hr : NewRepository (node, none) = some r0)
    (hid : (heap p).ID = 0) (hP : (heap p).Principal = 5000)
    (hR : (heap p).Rate = 5) (hO : (heap p).ROI = 6)
    (hI : (heap p).Investments = []) (hamt : inv.Amount = 5000) :
    ∃ (id : Int) (w1 w2 w3 w4 : World repository),
      (storeUsecase pubsub.NewMock).CreateLoan { ext := r0, heap := heap, calls := [] } p
        = (w1, none) ∧
      w1.ext.FindByID id = (some p, none) ∧
      (w1.heap p).ID = id ∧ (w1.heap p).State = StateProposed ∧
      (storeUsecase pubsub.NewMock).ApproveLoan w1 id a = some (w2, (some p, none)) ∧
      w2.ext.FindByID id = (some p, none) ∧ (w2.heap p).State = StateApproved ∧
      (storeUsecase pubsub.NewMock).AddInvestment w2 id inv = some (w3, (some p, none)) ∧
      w3.ext.FindByID id = (some p, none) ∧ (w3.heap p).State = StateInvested ∧
      PublishedBetween w2 w3 [Call.Publish "loan_invested" ⟨⟨id⟩⟩] ∧
      (storeUsecase pubsub.NewMock).DisburseLoan w3 id d = some (w4, (some p, none)) ∧
      w4.ext.FindByID id = (some p, none) ∧ (w4.heap p).State = StateDisbursed ∧
      (w4.heap p).Principal = 5000 ∧ (w4.heap p).Rate = 5 ∧ (w4.heap p).ROI = 6 ∧
      (w4.heap p).Approval = some a ∧ (w4.heap p).Investments = [inv] ∧
      (w4.heap p).Disbursement = some d := by
  have hr0 : r0 = { snowflakeNode := node, loans := fun _ => none } := by
    simp only [NewRepository, Option.some.injEq] at hr
    exact hr.symm
  subst hr0
  have hc := storeUsecase_createLoan pubsub.NewMock
    { ext := { snowflakeNode := node, loans := fun _ => none }, heap := heap, calls := [] } p
  obtain ⟨hobj, hfresh, -⟩ := hc
  obtain ⟨herr, hkey⟩ := hfresh rfl
  simp only [hid, if_true] at hobj
  have hid1 : (((storeUsecase pubsub.NewMock).CreateLoan
      { ext := { snowflakeNode := node, loans := fun _ => none }, heap := heap,
        calls := [] } p).1.heap p).ID = node.ids node.issued := by rw [hobj]
  rw [hid1] at hkey
  obtain ⟨w2, h2, e2, o2⟩ := approveLoan_step pubsub.NewMock _ _ p a hkey hid1
    (by rw [hobj])
  have hb2 : w2.ext.loans (node.ids node.issued) = some p := by rw [e2]; exact hkey
  obtain ⟨w3, h3, e3, o3, p3⟩ := addInvestment_full_step w2 _ p inv hb2
    (by rw [o2]; exact hid1) (by rw [o2])
    (by rw [o2]; show Float64.eq (Loan.total _ inv) _ = true
        rw [hobj]
        show Float64.eq ((heap p).Investments.foldl
          (fun total inv => Float64.add total inv.Amount) inv.Amount) (heap p).Principal
          = true
        rw [hI, hP, hamt]; decide!)
  have hb3 : w3.ext.loans (node.ids node.issued) = some p := by rw [e3]; exact hb2
  obtain ⟨w4, h4, e4, o4⟩ := disburseLoan_step pubsub.NewMock w3 _ p d hb3
    (by rw [o3, o2]; exact hid1) (by rw [o3])
  have hb4 : w4.ext.loans (node.ids node.issued) = some p := by rw [e4]; exact hb3
  refine ⟨node.ids node.issued, _, w2, w3, w4, Prod.ext rfl herr,
    findByID_of_key _ _ _ hkey, hid1, by rw [hobj], h2, findByID_of_key _ _ _ hb2,
    by rw [o2], h3, findByID_of_key _ _ _ hb3, by rw [o3], p3, h4,
    findByID_of_key _ _ _ hb4, by rw [o4], ?_, ?_, ?_, ?_, ?_, ?_⟩
  · rw [o4, o3, o2, hobj]; exact hP
  · rw [o4, o3, o2, hobj]; exact hR
  · rw [o4, o3, o2, hobj]; exact hO
  · rw [o4, o3, o2]
  · rw [o4, o3, o2, hobj]; show (heap p).Investments ++ [inv] = [inv]
    rw [hI]; rfl
  · rw [o4]

theorem create_approve_invest_disburse_witness :
    ∃ (id : Int) (w1 w2 w3 w4 : World repository),
      (storeUsecase pubsub.NewMock).CreateLoan
        { ext := { snowflakeNode := sampleNode, loans := fun _ => none },
          heap := scenarioHeap, calls := [] } 0 = (w1, none) ∧
      w1.ext.FindByID id = (some 0, none) ∧
      (w1.heap 0).ID = id ∧ (w1.heap 0).State = StateProposed ∧
      (storeUsecase pubsub.NewMock).ApproveLoan w1 id ⟨1, "", 0⟩
        = some (w2, (some 0, none)) ∧
      w2.ext.FindByID id = (some 0, none) ∧ (w2.heap 0).State = StateApproved ∧
      (storeUsecase pubsub.NewMock).AddInvestment w2 id ⟨0, 5000⟩
        = some (w3, (some 0, none)) ∧
      w3.ext.FindByID id = (some 0, none) ∧ (w3.heap 0).State = StateInvested ∧
      PublishedBetween w2 w3 [Call.Publish "loan_invested" ⟨⟨id⟩⟩] ∧
      (storeUsecase pubsub.NewMock).DisburseLoan w3 id ⟨1, "", 0⟩
        = some (w4, (some 0, none)) ∧
      w4.ext.FindByID id = (some 0, none) ∧ (w4.heap 0).State = StateDisbursed ∧
      (w4.heap 0).Principal = 5000 ∧ (w4.heap 0).Rate = 5 ∧ (w4.heap 0).ROI = 6 ∧
      (w4.heap 0).Approval = some ⟨1, "", 0⟩ ∧ (w4.heap 0).Investments = [⟨0, 5000⟩] ∧
      (w4.heap 0).Disbursement = some ⟨1, "", 0⟩ :=
  create_approve_invest_disburse sampleNode _ scenarioHeap 0 ⟨1, "", 0⟩ ⟨0, 5000⟩
    ⟨1, "", 0⟩ rfl (by decide) (by decide!) (by decide!) (by decide!) (by decide) rfl

/-- C28. What the code does when the funding is completed and `Publish` fails,
over the in-memory store. The loan object the store holds is the one
`AddInvestment` has already written through the pointer `FindByID` returned.
So, with a publisher that fails with `c` and writes nothing: the usecase returns
the error "publish loan invested failed", `Update` is not called and the map of
the store is as before, yet `FindByID id` then returns the loan in state
Invested with the new investment appended, not the loan as it was before the
call. -/
theorem failed_publish_leaves_loan_invested (pub : pubsub.Mock repository)
    (w : World repository) (id : Int) (p : LoanPtr) (inv : model.Investment)
    (c : GoError)
    (hb : w.ext.loans id = some p)
    (hs : (w.heap p).State = StateApproved)
    (ht : Float64.eq ((w.heap p).total inv) (w.heap p).Principal = true)
    (hpub : pub.Publish w.ext
        (Function.update w.heap p
          { w.heap p with
            Investments := (w.heap p).Investments ++ [inv], State := StateInvested })
        "loan_invested" ⟨⟨(w.heap p).ID⟩⟩ =
      ((w.ext,
        Function.update w.heap p
          { w.heap p with
            Investments := (w.heap p).Investments ++ [inv], State := StateInvested }),
        some c)) :
    ∃ w1, (storeUsecase pub).AddInvestment w id inv =
        some (w1, (none, some (GoError.wrap "publish loan invested failed" c))) ∧
      w1.calls = w.calls ++ [Call.FindByID id,
        Call.Publish "loan_invested" ⟨⟨(w.heap p).ID⟩⟩] ∧
      w1.ext = w.ext ∧
      w1.ext.FindByID id = (some p, none) ∧
      (w1.heap p).State = StateInvested ∧
      (w1.heap p).Investments = (w.heap p).Investments ++ [inv] ∧
      w1.heap p ≠ w.heap p := by
  rw [storeUsecase_addInvestment_full pub w id p inv hb hs ht]
  simp only [usecase.pubsubPublish, storeUsecase, NewUsecase, hpub]
  refine ⟨_, rfl, by simp only [List.append_assoc, List.singleton_append], rfl,
    findByID_of_key _ _ _ hb, ?_, ?_, ?_⟩
  · simp only [Function.update_same]
  · simp only [Function.update_same]
  · simp only [Function.update_same]
    intro h
    have h2 : StateInvested = (w.heap p).State := congrArg Loan.State h
    rw [hs] at h2
    exact absurd h2 (by decide)

theorem failed_publish_leaves_loan_invested_witness :
    (sampleWorld.heap 2).State = StateApproved ∧
    (sampleWorld.heap 2).Investments = [⟨1, 900⟩] ∧
    sampleWorld.ext.FindByID 7 = (some 2, none) ∧
    ∃ w1, (storeUsecase (failingMock (GoError.new "down"))).AddInvestment sampleWorld 7
        ⟨2, 1100⟩ =
        some (w1, (none, some (GoError.wrap "publish loan invested failed"
          (GoError.new "down")))) ∧
      w1.ext.FindByID 7 = (some 2, none) ∧
      (w1.heap 2).State = StateInvested ∧
      (w1.heap 2).Investments = [⟨1, 900⟩, ⟨2, 1100⟩] :=
  ⟨by decide, by decide!, by decide,
    let ⟨w1, h1, _, _, h4, h5, h6, _⟩ :=
      failed_publish_leaves_loan_invested (failingMock (GoError.new "down")) sampleWorld 7
        2 ⟨2, 1100⟩ (GoError.new "down") rfl (by decide) (by decide!) rfl
    ⟨w1, h1, h4, h5, h6⟩⟩

/-- C29. `CreateLoan` over the in-memory store writes the state, and through
`Save` the identifier when it is 0, and nothing else of the loan. For every loan
given: after the call its state is Proposed; its approval, investments,
disbursement, borrower, principal, rate, return and agreement link are as the
caller gave them; an identifier that is not 0 is kept, an identifier 0 becomes
the next value of the generator. When the call succeeds the store returns this
loan under its identifier. So a loan given with an approval, investments or a
disbursement is stored in state Proposed with those records still there. -/
theorem createLoan_overwrites_state_only (pub : pubsub.Mock repository)
    (w : World repository) (p : LoanPtr) :
    (((storeUsecase pub).CreateLoan w p).1.heap p).State = StateProposed ∧
    (((storeUsecase pub).CreateLoan w p).1.heap p).Approval = (w.heap p).Approval ∧
    (((storeUsecase pub).CreateLoan w p).1.heap p).Investments = (w.heap p).Investments ∧
    (((storeUsecase pub).CreateLoan w p).1.heap p).Disbursement = (w.heap p).Disbursement ∧
    (((storeUsecase pub).CreateLoan w p).1.heap p).BorrowerID = (w.heap p).BorrowerID ∧
    (((storeUsecase pub).CreateLoan w p).1.heap p).Principal = (w.heap p).Principal ∧
    (((storeUsecase pub).CreateLoan w p).1.heap p).Rate = (w.heap p).Rate ∧
    (((storeUsecase pub).CreateLoan w p).1.heap p).ROI = (w.heap p).ROI ∧
    (((storeUsecase pub).CreateLoan w p).1.heap p).AgreementLink
      = (w.heap p).AgreementLink ∧
    ((w.heap p).ID ≠ 0 →
      (((storeUsecase pub).CreateLoan w p).1.heap p).ID = (w.heap p).ID) ∧
    ((w.heap p).ID = 0 →
      (((storeUsecase pub).CreateLoan w p).1.heap p).ID =
        w.ext.snowflakeNode.ids w.ext.snowflakeNode.issued) ∧
    (((storeUsecase pub).CreateLoan w p).2 = none →
      ((storeUsecase pub).CreateLoan w p).1.ext.FindByID
        (((storeUsecase pub).CreateLoan w p).1.heap p).ID = (some p, none)) := by
  obtain ⟨hobj, hfresh, hkey⟩ := storeUsecase_createLoan pub w p
  refine ⟨by rw [hobj], by rw [hobj], by rw [hobj], by rw [hobj], by rw [hobj],
    by rw [hobj], by rw [hobj], by rw [hobj], by rw [hobj], fun h0 => ?_, fun h0 => ?_,
    fun hok => ?_⟩
  · rw [hobj]; exact if_neg h0
  · rw [hobj]; exact if_pos h0
  · apply findByID_of_key
    cases hk : w.ext.loans (((storeUsecase pub).CreateLoan w p).1.heap p).ID with
    | none => exact (hfresh hk).2
    | some q =>
      have := (hkey (by rw [hk]; rfl)).1
      rw [hok] at this
      exact absurd this (by simp)

theorem createLoan_overwrites_state_only_witness :
    (carriedWorld.heap 3).State = StateDisbursed ∧
    ((storeUsecase pubsub.NewMock).CreateLoan carriedWorld 3).2 = none ∧
    (((storeUsecase pubsub.NewMock).CreateLoan carriedWorld 3).1.heap 3).State
      = StateProposed ∧
    (((storeUsecase pubsub.NewMock).CreateLoan carriedWorld 3).1.heap 3).Approval
      = some ⟨1, "https://proof.com", 0⟩ ∧
    (((storeUsecase pubsub.NewMock).CreateLoan carriedWorld 3).1.heap 3).Investments
      = [⟨1, 1000⟩] ∧
    (((storeUsecase pubsub.NewMock).CreateLoan carriedWorld 3).1.heap 3).Disbursement
      = some ⟨2, "https://agreement.com", 1⟩ ∧
    ((storeUsecase pubsub.NewMock).CreateLoan carriedWorld 3).1.ext.FindByID
      (((storeUsecase pubsub.NewMock).CreateLoan carriedWorld 3).1.heap 3).ID
      = (some 3, none) :=
  ⟨by decide, by decide,
    (createLoan_overwrites_state_only pubsub.NewMock carriedWorld 3).1,
    (createLoan_overwrites_state_only pubsub.NewMock carriedWorld 3).2.1.trans
      (by decide),
    (createLoan_overwrites_state_only pubsub.NewMock carriedWorld 3).2.2.1.trans
      (by decide!),
    (createLoan_overwrites_state_only pubsub.NewMock carriedWorld 3).2.2.2.1.trans
      (by decide),
    (createLoan_overwrites_state_only pubsub.NewMock carriedWorld 3).2.2.2.2.2.2.2.2.2.2.2
      (by decide)⟩

end loan
